import Mathlib

/-!  Shallow embedding of the node-sylvester dense Matrix module
(matrix.ts, together with the pieces of vector.ts and the asm kernel it
uses) and proofs about the claims of its specification.

JavaScript numbers are modelled by an abstract carrier `α` equipped with a
`NumOps` record; the rational instance `ratOpsWith` interprets them as exact
rationals.  Every counterexample below uses inputs on which double-precision
evaluation is exact (integers and dyadic rationals), so the rational traces
coincide with the JavaScript ones.  Exceptions thrown by the code are
modelled with `Except JsError`. -/

deriving instance DecidableEq for Except

set_option synthInstance.maxSize 2000
set_option maxRecDepth 100000
set_option exponentiation.threshold 1100

namespace Sylv

/-- Errors surfaced by the embedded code.  `typeError` models the JavaScript
runtime TypeError raised by reading or writing a property of `undefined`. -/
inductive JsError : Type
  | typeError
  | dimensionalityMismatch
  | outOfRange
  deriving DecidableEq, Repr

/-- Numeric operations of the JavaScript number type, kept abstract so that
theorems can quantify over every interpretation.  `ofRat` interprets the
numeric literals appearing in the source. -/
structure NumOps (α : Type) where
  ofRat : ℚ → α
  add : α → α → α
  sub : α → α → α
  mul : α → α → α
  div : α → α → α
  neg : α → α
  abs : α → α
  sqrt : α → α
  beq : α → α → Bool
  blt : α → α → Bool

/-- Rational interpretation, parameterised by the square-root function:
`Math.sqrt` has no exact rational counterpart, so the registered claims
either never evaluate `sqrt` on a value they depend on, or quantify over
every square-root function. -/
def ratOpsWith (s : ℚ → ℚ) : NumOps ℚ where
  ofRat := id
  add := (· + ·)
  sub := (· - ·)
  mul := (· * ·)
  div := (· / ·)
  neg := Neg.neg
  abs := fun q => |q|
  sqrt := s
  beq := fun a b => a == b
  blt := fun a b => decide (a < b)

/-- Default rational interpretation.  Its square root is a placeholder
(constant 0); no registered claim computation depends on its value, which
the sqrt-generic lemmas below make explicit. -/
def ratOps : NumOps ℚ := ratOpsWith fun _ => 0

/-- A matrix is its `elements` array: a list of rows. -/
abbrev Mat (α : Type) := List (List α)

variable {α : Type}

/-- `this.cols`, computed in the constructor as
`this.rows && this.elements[0].length`. -/
def colsOf (m : Mat α) : ℕ :=
  match m with
  | [] => 0
  | r :: _ => r.length

/-- Row `i` (0-indexed) of a matrix, defaulting to an empty row out of
bounds. -/
def getRow (m : Mat α) (i : ℕ) : List α := (m.get? i).getD []

/-- In-bounds entry read `m[i][j]` (0-indexed).  Out of bounds JavaScript
yields `undefined` (or `null` coerced to 0 in arithmetic); the embedding
defaults to 0, and every use below either sits inside bounds established by
a rectangularity invariant or has its value discarded. -/
def entryD (ops : NumOps α) (m : Mat α) (i j : ℕ) : α :=
  ((getRow m i).get? j).getD (ops.ofRat 0)

/-- Write `m[i][j] = v` (0-indexed); writes outside the existing grid are
dropped (all writes performed by the embedded code are in bounds). -/
def setEntry (m : Mat α) (i j : ℕ) (v : α) : Mat α :=
  m.set i ((getRow m i).set j v)

/-- Rectangularity: every row has the length of the first one. -/
def Rect (m : Mat α) : Prop := ∀ r ∈ m, r.length = colsOf m

instance (m : Mat α) [DecidableEq α] : Decidable (Rect m) := by
  unfold Rect; infer_instance

/-- Shape predicate: an `n × c` rectangular grid. -/
def Shaped (n c : ℕ) (m : Mat α) : Prop :=
  m.length = n ∧ ∀ r ∈ m, r.length = c

instance (n c : ℕ) (m : Mat α) [DecidableEq α] : Decidable (Shaped n c m) := by
  unfold Shaped; infer_instance

/-- `Matrix.I(size)`. -/
def idMat (ops : NumOps α) (size : ℕ) : Mat α :=
  (List.range size).map fun y =>
    (List.range size).map fun x => if x = y then ops.ofRat 1 else ops.ofRat 0

/-- `Matrix.Fill(n, m, v)` (row and column counts given positionally). -/
def fillMat (n m : ℕ) (v : α) : Mat α :=
  List.replicate n (List.replicate m v)

/-- `Matrix.Zero(n, m)`. -/
def zeroMat (ops : NumOps α) (n m : ℕ) : Mat α :=
  fillMat n m (ops.ofRat 0)

/-- `Matrix.Diagonal(v)` (also `Vector.toDiagonalMatrix`). -/
def diagMat (ops : NumOps α) (v : List α) : Mat α :=
  (List.range v.length).map fun y =>
    (List.range v.length).map fun x =>
      if x = y then (v.get? x).getD (ops.ofRat 0) else ops.ofRat 0

/-- `Matrix.prototype.transpose`. -/
def transpose (ops : NumOps α) (m : Mat α) : Mat α :=
  (List.range (colsOf m)).map fun i =>
    (List.range m.length).map fun j => entryD ops m j i

/-- `Matrix.prototype.e(i, j)`: 1-indexed access returning `null` out of
bounds.  The tests are performed in source order with JavaScript
short-circuit `||`, so `this.elements[0]` is only consulted once `1 ≤ i ≤
rows` guarantees it exists. -/
def eAcc (m : Mat α) (i j : ℤ) : Option α :=
  if i < 1 then none
  else if i > m.length then none
  else if j < 1 then none
  else if j > colsOf m then none
  else ((m.get? (i - 1).toNat).getD []).get? (j - 1).toNat

/-- `Matrix.prototype.row(i)`: 1-indexed, throws `OutOfRangeError` when `i`
is outside `[1, rows]`. -/
def rowAcc (m : Mat α) (i : ℤ) : Except JsError (List α) :=
  if i < 1 ∨ i > m.length then .error .outOfRange
  else .ok ((m.get? (i - 1).toNat).getD [])

/-- `Matrix.prototype.col(j)`: throws `OutOfRangeError` when `j` is outside
`[1, cols]`; on an empty matrix the bound check itself reads
`this.elements[0].length` of `undefined` and raises a TypeError. -/
def colAcc (ops : NumOps α) (m : Mat α) (j : ℕ) : Except JsError (List α) :=
  match m with
  | [] => .error .typeError
  | r0 :: _ =>
    if j < 1 ∨ j > r0.length then .error .outOfRange
    else .ok (m.map fun r => (r.get? (j - 1)).getD (ops.ofRat 0))

/-- `Matrix.prototype.isSquare`, reading `this.elements[0].length`: on a
matrix with zero rows this dereferences `undefined` and raises a
TypeError. -/
def isSquareE (m : Mat α) : Except JsError Bool :=
  match m with
  | [] => .error .typeError
  | r0 :: _ => .ok (decide (m.length = r0.length))

/-- `Matrix.prototype.diagonal`, which first calls `isSquare` (TypeError on
zero rows) and throws `DimensionalityMismatchError` when not square. -/
def diagonalE (ops : NumOps α) (m : Mat α) : Except JsError (List α) := do
  let sq ← isSquareE m
  if !sq then .error .dimensionalityMismatch
  else .ok ((List.range m.length).map fun i => entryD ops m i i)

/-- `Matrix.prototype.map`-style elementwise transform with 1-indexed
positions handed to the callback (the source reads every row up to the
first row's length; all uses are on rectangular matrices). -/
def mapWithIdx (f : ℕ → ℕ → α → α) (m : Mat α) : Mat α :=
  m.enum.map fun ir => ir.2.enum.map fun jx => f (ir.1 + 1) (jx.1 + 1) jx.2

/-- `Matrix.prototype.triu(k)`: keep entries with `j - i >= k` (1-indexed
positions), zero elsewhere. -/
def triu (ops : NumOps α) (k : ℤ) (m : Mat α) : Mat α :=
  mapWithIdx (fun i j x => if (j : ℤ) - (i : ℤ) ≥ k then x else ops.ofRat 0) m

/-- `Matrix.prototype.unroll`: column-major flattening via `e(j, i)` for
`i = 1..cols`, `j = 1..rows`. -/
def unroll (ops : NumOps α) (m : Mat α) : List α :=
  (List.range' 1 (colsOf m)).flatMap fun i =>
    (List.range' 1 m.length).map fun j => entryD ops m (j - 1) (i - 1)

/-- `Vector.prototype.magnitude` (asm kernel): square root of the running
sum of squares, accumulated left to right. -/
def magnitude (ops : NumOps α) (v : List α) : α :=
  ops.sqrt (v.foldl (fun s x => ops.add s (ops.mul x x)) (ops.ofRat 0))

/-- The private helper `sign(x) = x < 0 ? -1 : 1`. -/
def signVal (ops : NumOps α) (x : α) : α :=
  if ops.blt x (ops.ofRat 0) then ops.ofRat (-1) else ops.ofRat 1

/-- `Vector.prototype.add` on a vector argument: length mismatch throws
`DimensionalityMismatchError`. -/
def vecAdd (ops : NumOps α) (a b : List α) : Except JsError (List α) :=
  if a.length ≠ b.length then .error .dimensionalityMismatch
  else .ok (a.zipWith ops.add b)

/-- `Vector.prototype.x` on a scalar argument. -/
def vecScalarMul (ops : NumOps α) (a : List α) (c : α) : List α :=
  a.map fun x => ops.mul x c

/-- `Matrix.prototype.mulOp` on a scalar argument: elementwise. -/
def scalarMap (op : α → α → α) (c : α) (m : Mat α) : Mat α :=
  m.map fun r => r.map fun x => op x c

/-- `Matrix.prototype.x` (mulOp) on a matrix argument.  On an empty
receiver `canMultiplyFromLeft` reads `this.elements[0].length` of
`undefined` (TypeError); an incompatible shape throws
`DimensionalityMismatchError`; an empty argument that passes the check
crashes on `M[0].length`.  The inner sum is accumulated with `k`
descending, as in the source. -/
def mulOpM (ops : NumOps α) (a m : Mat α) : Except JsError (Mat α) :=
  match a with
  | [] => .error .typeError
  | r0 :: _ =>
    if r0.length ≠ m.length then .error .dimensionalityMismatch
    else
      match m with
      | [] => .error .typeError
      | m0 :: _ =>
        .ok (a.map fun row =>
          (List.range m0.length).map fun j =>
            ((List.range r0.length).reverse).foldl
              (fun sum k =>
                ops.add sum (ops.mul ((row.get? k).getD (ops.ofRat 0)) (entryD ops m k j)))
              (ops.ofRat 0))

/-- `Matrix.prototype.x` on a vector argument: `extractElements` turns the
flat element list into a column matrix (crashing with a TypeError on an
empty vector, whose `rows[0][0]` probe dereferences `undefined`), and the
result is handed back through `col(1)`. -/
def mulVec (ops : NumOps α) (a : Mat α) (v : List α) : Except JsError (List α) :=
  match v with
  | [] => .error .typeError
  | _ => do
    let out ← mulOpM ops a (v.map fun x => [x])
    colAcc ops out 1

/-- `Matrix.prototype.subtract` on a matrix argument (sizes must agree). -/
def subM (ops : NumOps α) (a m : Mat α) : Except JsError (Mat α) :=
  if a.length = m.length ∧ colsOf a = colsOf m then
    .ok (mapWithIdx (fun i j x => ops.sub x (entryD ops m (i - 1) (j - 1))) a)
  else .error .dimensionalityMismatch

/-- `Matrix.prototype.eql(matrix, epsilon)` on same-typed operands: sizes
must agree and every entrywise difference must satisfy
`|a - b| ≤ epsilon`. -/
def eqlB (ops : NumOps α) (a m : Mat α) (eps : α) : Bool :=
  if a.length = m.length ∧ colsOf a = colsOf m then
    (a.enum.all fun ir =>
      ir.2.enum.all fun jx =>
        !(ops.blt eps (ops.abs (ops.sub jx.2 (entryD ops m ir.1 jx.1)))))
  else false

/-- Error-propagating left fold (the monadic fold over `Except`, written
recursively so that kernel evaluation is direct). -/
def foldE (f : σ → β → Except JsError σ) : σ → List β → Except JsError σ
  | st, [] => .ok st
  | st, k :: ks =>
    match f st k with
    | .error e => .error e
    | .ok st2 => foldE f st2 ks

/-- Error-propagating map (the monadic map over `Except`, written
recursively so that kernel evaluation is direct). -/
def mapE (f : β → Except JsError γ) : List β → Except JsError (List γ)
  | [] => .ok []
  | b :: bs =>
    match f b with
    | .error e => .error e
    | .ok c =>
      match mapE f bs with
      | .error e => .error e
      | .ok cs => .ok (c :: cs)

/-- `Matrix.prototype.slice(startRow, endRow, startCol, endCol)` with the
`0 → whole matrix` defaults; entries are fetched through `e(i, j)!` (all
uses below are in bounds). -/
def sliceM (ops : NumOps α) (m : Mat α) (startRow endRow startCol endCol : ℕ) : Mat α :=
  let endRow := if endRow = 0 then m.length else endRow
  let endCol := if endCol = 0 then colsOf m else endCol
  (List.range' (max 1 startRow) (endRow + 1 - max 1 startRow)).map fun i =>
    (List.range' (max 1 startCol) (endCol + 1 - max 1 startCol)).map fun j =>
      entryD ops m (i - 1) (j - 1)

/-- JavaScript array read `l[i]` under an integer index: negative or
past-the-end indices yield `undefined`. -/
def jsIdx (l : List β) (i : ℤ) : Option β :=
  if i < 0 then none else l.get? i.toNat

/-- `Matrix.prototype.minor(startRow, startCol, nrows, ncols)`.  The source
selects `this.elements[(startRow + i - 1) % rows][(startCol + j - 1) % cols]`
with the JavaScript remainder (sign of the dividend, `Int.tmod`).  A
negative row remainder indexes `undefined` and reading its property throws
a TypeError; a failed column lookup merely yields `undefined`, which the
embedding keeps as an `Option` entry. -/
def minorM (m : Mat α) (startRow startCol : ℤ) (nrows ncols : ℕ) :
    Except JsError (List (List (Option α))) :=
  mapE (fun (i : ℕ) =>
    match jsIdx m ((startRow + (i : ℤ) - 1).tmod m.length) with
    | none => .error .typeError
    | some row => .ok ((List.range ncols).map fun (j : ℕ) =>
        jsIdx row ((startCol + (j : ℤ) - 1).tmod (colsOf m))))
    (List.range nrows)

/-- JavaScript float equality test `v === 0` applied to a possibly
`undefined` array read: `undefined === 0` is `false`. -/
def isZeroRead (ops : NumOps α) (o : Option α) : Bool :=
  match o with
  | none => false
  | some v => ops.beq v (ops.ofRat 0)

/-- JavaScript float test `v !== 0` applied to a possibly `undefined` array
read: `undefined !== 0` is `true`. -/
def nonZeroRead (ops : NumOps α) (o : Option α) : Bool :=
  match o with
  | none => true
  | some v => !ops.beq v (ops.ofRat 0)

/-- The diagonal fix-up phase of a `toRightTriangular` iteration: when the
diagonal entry is exactly zero, add the first lower row with a non-zero
entry in column `i` to row `i` (all `np` columns). -/
def rtFix (ops : NumOps α) (n np : ℕ) (m : Mat α) (i : ℕ) : Mat α :=
  if isZeroRead ops ((getRow m i).get? i) then
    match (List.range' (i + 1) (n - (i + 1))).find?
        (fun j => nonZeroRead ops ((getRow m j).get? i)) with
    | some j =>
      m.set i ((List.range np).map fun p =>
        ops.add (entryD ops m i p) (entryD ops m j p))
    | none => m
  else m

/-- The replacement row used by the elimination phase: entries in columns
`≤ i` are forced to exactly 0, later columns subtract `multiplier` times
the pivot row. -/
def rtElimRow (ops : NumOps α) (np i j : ℕ) (m : Mat α) : List α :=
  let mult := ops.div (entryD ops m j i) (entryD ops m i i)
  (List.range np).map fun p =>
    if p ≤ i then ops.ofRat 0
    else ops.sub (entryD ops m j p) (ops.mul (entryD ops m i p) mult)

/-- The elimination phase of a `toRightTriangular` iteration: when the
(possibly `undefined`) diagonal read passes `!== 0`, rewrite every lower
row with `rtElimRow`. -/
def rtElim (ops : NumOps α) (n np : ℕ) (m : Mat α) (i : ℕ) : Mat α :=
  if nonZeroRead ops ((getRow m i).get? i) then
    (List.range' (i + 1) (n - (i + 1))).foldl
      (fun m j => m.set j (rtElimRow ops np i j m)) m
  else m

/-- One iteration (pivot index `i`) of the `toRightTriangular` outer loop:
the diagonal fix-up followed by the elimination of the rows below. -/
def rtStep (ops : NumOps α) (n np : ℕ) (m : Mat α) (i : ℕ) : Mat α :=
  rtElim ops n np (rtFix ops n np m i) i

/-- `Matrix.prototype.toRightTriangular`: Gaussian elimination by row
additions only.  On a matrix with zero rows the source reads
`this.elements[0].length` of `undefined` (TypeError). -/
def toRightTriangular (ops : NumOps α) (mat : Mat α) : Except JsError (Mat α) :=
  match mat with
  | [] => .error .typeError
  | r0 :: _ => .ok ((List.range mat.length).foldl (rtStep ops mat.length r0.length) mat)

/-- `Matrix.prototype.determinant`: requires a square matrix (the
`isSquare` probe itself raises a TypeError on zero rows), special-cases the
0×0 matrix, then multiplies the diagonal of the right-triangular form. -/
def determinant (ops : NumOps α) (mat : Mat α) : Except JsError α := do
  let sq ← isSquareE mat
  if !sq then .error .dimensionalityMismatch
  else if colsOf mat = 0 ∧ mat.length = 0 then .ok (ops.ofRat 1)
  else do
    let M ← toRightTriangular ops mat
    .ok ((List.range' 1 (M.length - 1)).foldl
      (fun det i => ops.mul det (entryD ops M i i)) (entryD ops M 0 0))

/-- The `partialPivot(k, j)` closure inside `lu`.  Note the two source
slips preserved here: a candidate that wins the comparison updates
`maxValue` from the PIVOT row `A[k-1][j-1]` rather than from the candidate
row, and when no candidate ever exceeds the running value (`maxIndex`
remains 0) the swap branch executes `P[maxIndex - 1][maxIndex - 1] = 0`,
writing a property of `undefined` — a TypeError. -/
def luPivot (ops : NumOps α) (rows k j : ℕ) (A P : Mat α) :
    Except JsError (Mat α × Mat α) :=
  let mi :=
    (List.range' k (rows + 1 - k)).foldl
      (fun s i =>
        if ops.blt s.2 (ops.abs (entryD ops A (i - 1) (j - 1))) then
          (i, ops.abs (entryD ops A (k - 1) (j - 1)))
        else s)
      (0, ops.ofRat 0)
  let maxIndex := mi.1
  if maxIndex ≠ k then
    if maxIndex = 0 then .error .typeError
    else
      let tmp := getRow A (k - 1)
      let A := (A.set (k - 1) (getRow A (maxIndex - 1))).set (maxIndex - 1) tmp
      let P := setEntry P (k - 1) (k - 1) (ops.ofRat 0)
      let P := setEntry P (k - 1) (maxIndex - 1) (ops.ofRat 1)
      let P := setEntry P (maxIndex - 1) (maxIndex - 1) (ops.ofRat 0)
      let P := setEntry P (maxIndex - 1) (k - 1) (ops.ofRat 1)
      .ok (A, P)
  else .ok (A, P)

/-- Result bundle of `Matrix.prototype.lu`. -/
structure LUResult (α : Type) where
  L : Mat α
  U : Mat α
  P : Mat α
  deriving DecidableEq, Repr

/-- One iteration (pivot step `k`) of the `lu` main loop over the state
`(A, P, L, U, p)`. -/
def luStep (ops : NumOps α) (rows cols : ℕ)
    (st : Mat α × Mat α × Mat α × Mat α × ℕ) (k : ℕ) :
    Except JsError (Mat α × Mat α × Mat α × Mat α × ℕ) := do
  let (A0, P0, L0, U0, p) := st
  let (A1, P1) ← luPivot ops rows k p A0 P0
  let AL :=
    (List.range' (k + 1) (rows - k)).foldl
      (fun (al : Mat α × Mat α) i =>
        let l := ops.div (entryD ops al.1 (i - 1) (p - 1)) (entryD ops al.1 (k - 1) (p - 1))
        let L := setEntry al.2 (i - 1) (k - 1) l
        let A := (List.range' (k + 1) (cols - k)).foldl
          (fun A j => setEntry A (i - 1) (j - 1)
            (ops.sub (entryD ops A (i - 1) (j - 1)) (ops.mul (entryD ops A (k - 1) (j - 1)) l)))
          al.1
        (A, L))
      (A1, L0)
  let U1 := (List.range' k (cols + 1 - k)).foldl
    (fun U j => setEntry U (k - 1) (j - 1) (entryD ops AL.1 (k - 1) (j - 1))) U0
  .ok (AL.1, P1, AL.2, U1, if p < cols then p + 1 else p)

/-- `Matrix.prototype.lu`: partial-pivoted factorization over the working
state `(A, P, L, U, p)`, with `L` started as the identity, `U` as the zero
matrix and `P` as the identity. -/
def lu (ops : NumOps α) (mat : Mat α) : Except JsError (LUResult α) := do
  let rows := mat.length
  let cols := colsOf mat
  let st ← foldE (luStep ops rows cols)
    (mat, idMat ops rows, idMat ops rows, zeroMat ops rows cols, 1)
    (List.range' 1 (min cols rows))
  .ok ⟨st.2.2.1, st.2.2.2.1, st.2.1⟩

/-- `Matrix.prototype.forwardSubstitute(b)`: rows top to bottom, each new
component `(b[i] - w) / m[i][i]` appended to the working array (`b.e(i)!`
out of range yields `null`, which JavaScript arithmetic coerces to 0 — the
`getD 0` default). -/
def forwardSubstitute (ops : NumOps α) (m : Mat α) (b : List α) : List α :=
  (List.range' 1 m.length).foldl
    (fun xa i =>
      let w := (List.range' 1 (i - 1)).foldl
        (fun w j => ops.add w
          (ops.mul (entryD ops m (i - 1) (j - 1)) ((xa.get? (j - 1)).getD (ops.ofRat 0))))
        (ops.ofRat 0)
      xa ++ [ops.div (ops.sub ((b.get? (i - 1)).getD (ops.ofRat 0)) w)
        (entryD ops m (i - 1) (i - 1))])
    []

/-- `Matrix.prototype.backSubstitute(b)`: rows bottom to top (inner sum with
`j` descending, indexing the working array at `rows - j`), reversed at the
end. -/
def backSubstitute (ops : NumOps α) (m : Mat α) (b : List α) : List α :=
  let rows := m.length
  let cols := colsOf m
  ((List.range' 1 rows).reverse.foldl
    (fun xa i =>
      let w := ((List.range' (i + 1) (cols - i)).reverse).foldl
        (fun w j => ops.add w
          (ops.mul (entryD ops m (i - 1) (j - 1)) ((xa.get? (rows - j)).getD (ops.ofRat 0))))
        (ops.ofRat 0)
      xa ++ [ops.div (ops.sub ((b.get? (i - 1)).getD (ops.ofRat 0)) w)
        (entryD ops m (i - 1) (i - 1))])
    []).reverse

/-- The private helper `identSize(e, m, n, k)`: prepend `k - 1` identity
rows of length `n`, then left-pad the rows at positions `k - 1 .. m - 1`
(the rows of `e`) with zeros until they reach length `n`. -/
def identSize (ops : NumOps α) (e : Mat α) (m n k : ℕ) : Mat α :=
  ((List.range (k - 1)).map fun i =>
    (List.range n).map fun j => if j = i then ops.ofRat 1 else ops.ofRat 0)
  ++ e.enum.map fun tr =>
      if k - 1 + tr.1 < m then
        List.replicate (n - tr.2.length) (ops.ofRat 0) ++ tr.2
      else tr.2

/-- One Householder-style iteration `k` of the `qr` loop over the state
`(Q, A)`. -/
def qrStep (ops : NumOps α) (m n : ℕ) (st : Mat α × Mat α) (k : ℕ) :
    Except JsError (Mat α × Mat α) := do
  let (Q, A) := st
  let ak ← colAcc ops (sliceM ops A k 0 k k) 1
  let oneZero := ops.ofRat 1 :: List.replicate (m - k) (ops.ofRat 0)
  let vk ← vecAdd ops ak
    (vecScalarMul ops oneZero
      (ops.mul (magnitude ops ak) (signVal ops ((ak.get? 0).getD (ops.ofRat 0)))))
  let Vk : Mat α := vk.map fun x => [x]
  let VVt ← mulOpM ops (scalarMap ops.mul (ops.ofRat 2) Vk) (transpose ops Vk)
  let VtV ← mulOpM ops (transpose ops Vk) Vk
  let Hk ← subM ops (idMat ops (m - k + 1))
    (scalarMap ops.div (entryD ops VtV 0 0) VVt)
  let Qk := identSize ops Hk m n k
  let A2 ← mulOpM ops Qk A
  let Q2 ← mulOpM ops Q Qk
  .ok (Q2, A2)

/-- `Matrix.prototype.qr`: accumulate Householder-style reflections for
`k = 1 .. min(rows, cols) - 1`, returning `{Q, R}`. -/
def qr (ops : NumOps α) (mat : Mat α) : Except JsError (Mat α × Mat α) := do
  let m := mat.length
  let n := colsOf mat
  let st ← foldE (qrStep ops m n) (idMat ops m, mat) (List.range' 1 (min m n - 1))
  .ok st

/-- Convergence tolerance literal `2.2737e-13` of the `svd` loop (the
numerals are computed in `ℕ` and cast, keeping reduction shallow). -/
def svdTol : ℚ := 22737 / ((10 ^ 17 : ℕ) : ℚ)

/-- `Number.MAX_VALUE`, the initial error value of the `svd` loop (the
numeral is computed in `ℕ` and cast, keeping reduction shallow). -/
def jsMaxValue : ℚ := (((2 ^ 53 - 1) * 2 ^ 971 : ℕ) : ℚ)

/-- Sanity check: `svdTol` is the literal `2.2737e-13`. -/
theorem svdTol_eq : svdTol = 22737 / 10 ^ 17 := by
  norm_num [svdTol]

/-- Sanity check: `jsMaxValue` is the double-precision maximum
`(2^53 - 1) · 2^971`. -/
theorem jsMaxValue_eq : jsMaxValue = ((2 ^ 53 - 1 : ℕ) : ℚ) * ((2 ^ 971 : ℕ) : ℚ) := by
  norm_num [jsMaxValue]

/-- The body of one `svd` while-loop iteration over the state `(V, S, U)`:
two QR sweeps of the transpose chain and the relative off-diagonal error
`err = |triu(S, 1)| / |diag(S)|` (divisor replaced by 1 when it is exactly
zero).  `S.diagonal()` throws `DimensionalityMismatchError` whenever the
current `S` is not square. -/
def svdBody (ops : NumOps α) (st : Mat α × Mat α × Mat α) :
    Except JsError ((Mat α × Mat α × Mat α) × α) := do
  let (V0, S0, U0) := st
  let qr1 ← qr ops (transpose ops S0)
  let S1 := qr1.2
  let V1 ← mulOpM ops V0 qr1.1
  let qr2 ← qr ops (transpose ops S1)
  let U1 ← mulOpM ops U0 qr2.1
  let S2 := qr2.2
  let e := magnitude ops (unroll ops (triu ops 1 S2))
  let d ← diagonalE ops S2
  let f0 := magnitude ops d
  let f := if ops.beq f0 (ops.ofRat 0) then ops.ofRat 1 else f0
  .ok ((V1, S2, U1), ops.div e f)

/-- The `svd` while loop `while (err > 2.2737e-13 && i < maxLoop)`,
expressed with the remaining iteration budget as fuel. -/
def svdGo (ops : NumOps α) : ℕ → (Mat α × Mat α × Mat α) → α →
    Except JsError (Mat α × Mat α × Mat α)
  | 0, st, _ => .ok st
  | fuel + 1, st, err =>
    if ops.blt (ops.ofRat svdTol) err then do
      let r ← svdBody ops st
      svdGo ops fuel r.1 r.2
    else .ok st

/-- The iteration phase of `Matrix.prototype.svd`: starting from
`V = I(rows)`, `S = transpose(this)`, `U = I(cols)` with `err =
Number.MAX_VALUE` and at most 100 iterations. -/
def svdLoop (ops : NumOps α) (mat : Mat α) : Except JsError (Mat α × Mat α × Mat α) :=
  svdGo ops 100 (idMat ops mat.length, transpose ops mat, idMat ops (colsOf mat))
    (ops.ofRat jsMaxValue)

/-- The sign-correction phase of `Matrix.prototype.svd`: walk the diagonal
of the converged `S`, push absolute values, and for each negative entry
negate rows `0 .. U.rows - 1` of the corresponding column of `V`. -/
def svdCorrect (ops : NumOps α) (st : Mat α × Mat α × Mat α) :
    Except JsError (Mat α × Mat α × Mat α) := do
  let (V0, S0, U0) := st
  let ss ← diagonalE ops S0
  let s := ss.map ops.abs
  let V := (List.range' 1 ss.length).foldl
    (fun V i =>
      if ops.blt ((ss.get? (i - 1)).getD (ops.ofRat 0)) (ops.ofRat 0) then
        (List.range U0.length).foldl
          (fun V j => setEntry V j (i - 1) (ops.neg (entryD ops V j (i - 1)))) V
      else V)
    V0
  .ok (U0, diagMat ops s, V)

/-- `Matrix.prototype.svd`: the iteration phase followed by the
sign-correction phase, returning `{U, S, V}`. -/
def svd (ops : NumOps α) (mat : Mat α) : Except JsError (Mat α × Mat α × Mat α) := do
  let st ← svdLoop ops mat
  svdCorrect ops st

/-- `Matrix.prototype.solve(b)`: LU, forward substitution on `P × b`, back
substitution, and a final multiplication by `P`. -/
def solve (ops : NumOps α) (mat : Mat α) (b : List α) : Except JsError (List α) := do
  let r ← lu ops mat
  let pb ← mulVec ops r.P b
  let y := forwardSubstitute ops r.L pb
  let x := backSubstitute ops r.U y
  mulVec ops r.P x

/-- A permutation matrix: square, every row and every column holds exactly
one 1 and zeroes elsewhere (vocabulary of the claims, not of the source). -/
def PermutationMatrix (m : Mat ℚ) : Prop :=
  (∀ r ∈ m, r.length = m.length ∧ r.count 1 = 1 ∧ ∀ x ∈ r, x = 0 ∨ x = 1) ∧
  ∀ j ∈ List.range m.length, (m.map fun r => (r.get? j).getD 0).count 1 = 1

instance (m : Mat ℚ) : Decidable (PermutationMatrix m) := by
  unfold PermutationMatrix; infer_instance

end Sylv

namespace Sylv

/-- C1: the claim states that for every matrix, `{L, U, P} = M.lu()`
satisfies `P × M ≈ L × U` within `1e-9` with `P` a permutation matrix, in
particular when elimination performs two or more row swaps.  On
`M = [[0,1,1],[2,1,1],[0,4,5]]` the elimination swaps rows 1↔2 and then
rows 2↔3; the identity-assuming entry updates of `partialPivot` corrupt
`P` into `[[0,1,0],[1,0,1],[0,1,0]]`, which is not a permutation matrix,
and `P × M = [[2,1,1],[0,5,6],[2,1,1]]` differs from
`L × U = [[2,1,1],[0,4,5],[0,1,1]]` by 1 ≫ 1e-9.  (Every arithmetic step
on this input is exact in double precision.) -/
theorem c1_lu_roundtrip_fails_after_two_swaps :
    lu ratOps [[0,1,1],[2,1,1],[0,4,5]]
      = .ok ⟨[[1,0,0],[0,1,0],[0,1/4,1]], [[2,1,1],[0,4,5],[0,0,-1/4]],
             [[0,1,0],[1,0,1],[0,1,0]]⟩ ∧
    mulOpM ratOps [[0,1,0],[1,0,1],[0,1,0]] [[0,1,1],[2,1,1],[0,4,5]]
      = .ok [[2,1,1],[0,5,6],[2,1,1]] ∧
    mulOpM ratOps [[1,0,0],[0,1,0],[0,1/4,1]] [[2,1,1],[0,4,5],[0,0,-1/4]]
      = .ok [[2,1,1],[0,4,5],[0,1,1]] ∧
    eqlB ratOps [[2,1,1],[0,5,6],[2,1,1]] [[2,1,1],[0,4,5],[0,1,1]] (1 / 10 ^ 9)
      = false ∧
    ¬ PermutationMatrix [[0,1,0],[1,0,1],[0,1,0]] := by
  with_unfolding_all decide

/-- C2: the claim states that each pivot step swaps into position `k` the
row of greatest magnitude in the pivot column, so that afterwards
`|A[k][col]| ≥ |A[i][col]|` for every `i ≥ k`.  On the pivot column
`[1, 3, 2]` the loop updates `maxValue` from the pivot row instead of the
candidate row, so the LAST row exceeding `|A[k][col]|` wins: row 3 (entry
2) is swapped up rather than row 2 (entry 3), and after the swap
`|A[1][1]| = 2 < 3 = |A[2][1]|`. -/
theorem c2_pivot_not_maximal :
    luPivot ratOps 3 1 1 [[1,0,0],[3,1,0],[2,0,1]] (idMat ratOps 3)
      = .ok ([[2,0,1],[3,1,0],[1,0,0]], [[0,0,1],[0,1,0],[1,0,0]]) ∧
    |entryD ratOps [[2,0,1],[3,1,0],[1,0,0]] 0 0|
      < |entryD ratOps [[2,0,1],[3,1,0],[1,0,0]] 1 0| := by
  decide

/-- C4: the claim states that `solve` on `A = [[2,3],[4,4]]`,
`b = [2,1]` returns approximately `[1.5, -1.25]`.  The embedded chain
(lu, forward substitution on `P × b`, back substitution, final
multiplication by `P`) returns exactly `[3/2, -5/4]`, and every arithmetic
step on this input is exact in double precision. -/
theorem c4_solve_concrete :
    solve ratOps [[2,3],[4,4]] [2,1] = .ok [3/2, -5/4] := by
  with_unfolding_all decide

/-- C3: the claim states that every matrix admits `{Q, R} = M.qr()` with
`Q × R ≈ M`.  On any 2×3 matrix the single Householder iteration builds
`Qk` by padding the 2×2 reflector rows to length 3 (`identSize` pads to
the ORIGINAL column count), so `Qk` is 2×3 and `Qk.x(A)` fails its
`canMultiplyFromLeft` check: `qr` throws `DimensionalityMismatchError`
instead of returning a factorization.  The statement quantifies over every
square-root function, making the crash independent of `Math.sqrt`. -/
theorem c3_qr_throws_on_rectangular :
    ∀ s : ℚ → ℚ, qr (ratOpsWith s) [[1,2,3],[4,5,6]]
      = .error .dimensionalityMismatch := by
  intro s
  rfl

/-- C5: the claim states that `determinant()` on the 0×0 matrix returns 1
rather than failing.  In the source the `isSquare()` guard runs first and
reads `this.elements[0].length` of `undefined`, raising a TypeError, so
the 0×0 special case that would return 1 is unreachable. -/
theorem c5_determinant_empty_crashes :
    determinant ratOps ([] : Mat ℚ) = .error .typeError ∧
    isSquareE ([] : Mat ℚ) = .error .typeError := by
  decide

/-- C6 counterexample: the claim quantifies over every input matrix,
including non-square ones with more rows than columns.  But for every
non-square input the iteration's convergence test calls `S.diagonal()` on a
non-square working matrix (here `S` is 1×2 for the 2×1 input `[[1],[2]]`),
which throws `DimensionalityMismatchError` — `svd` never reaches the
sign-correction step on such inputs. -/
theorem c6_svd_throws_on_nonsquare :
    svd ratOps [[1],[2]] = .error .dimensionalityMismatch := by
  with_unfolding_all rfl

/-- C9 counterexample: the claim asserts `solve` returns a vector without
throwing for EVERY square matrix, including singular ones.  On the singular
matrix `[[0,0],[0,0]]` the pivot search of the first elimination step finds
no entry of positive magnitude, leaves `maxIndex = 0`, and the swap branch
then executes `P[-1][-1] = 0`, a TypeError (setting a property of
`undefined`). -/
theorem c9_solve_crashes_on_zero_pivot_column :
    solve ratOps [[0,0],[0,0]] [1,1] = .error .typeError ∧
    lu ratOps ([[0,0],[0,0]] : Mat ℚ) = .error .typeError := by
  with_unfolding_all decide

/-- C10 counterexample: the claim asserts `minor` never throws for any
`startRow`, `startCol`.  With `startRow = 0` the first selected row index
is `(0 + 0 - 1) % 2 = -1` (JavaScript remainder keeps the dividend's
sign), `this.elements[-1]` is `undefined`, and reading its column property
throws a TypeError. -/
theorem c10_minor_crashes_on_zero_startRow :
    minorM ([[1],[2]] : Mat ℚ) 0 1 1 1 = .error .typeError := by
  with_unfolding_all decide

end Sylv

namespace Sylv

variable {α : Type}


theorem length_setEntry (m : Mat α) (i j : ℕ) (v : α) :
    (setEntry m i j v).length = m.length := List.length_set ..

theorem getRow_set_self (m : Mat α) (i : ℕ) (row : List α) (h : i < m.length) :
    getRow (m.set i row) i = row := by
  simp [getRow, List.get?_eq_getElem?, List.getElem?_set_self h]

theorem getRow_set_ne (m : Mat α) (i r : ℕ) (row : List α) (h : i ≠ r) :
    getRow (m.set i row) r = getRow m r := by
  simp [getRow, List.get?_eq_getElem?, List.getElem?_set_ne h]

theorem getRow_length (np : ℕ) (m : Mat α) (hrows : ∀ row ∈ m, row.length = np)
    (r : ℕ) (h : r < m.length) : (getRow m r).length = np := by
  have := List.get?_eq_get h
  rw [getRow, this]
  exact hrows _ (List.get_mem m r h)

theorem foldl_set_length (f : Mat α → ℕ → List α) :
    ∀ (l : List ℕ) (m : Mat α),
      (l.foldl (fun m j => m.set j (f m j)) m).length = m.length
  | [], _ => rfl
  | j :: js, m => by
    rw [List.foldl_cons, foldl_set_length f js, List.length_set]

theorem foldl_set_getRow_not_mem (f : Mat α → ℕ → List α) :
    ∀ (l : List ℕ) (m : Mat α) (r : ℕ), r ∉ l →
      getRow (l.foldl (fun m j => m.set j (f m j)) m) r = getRow m r
  | [], _, _, _ => rfl
  | j :: js, m, r, h => by
    have h2 : r ≠ j ∧ r ∉ js := by simpa [List.mem_cons, not_or] using h
    rw [List.foldl_cons, foldl_set_getRow_not_mem f js _ _ h2.2,
      getRow_set_ne m j r _ (fun e => h2.1 e.symm)]

theorem foldl_set_getRow_mem (f : Mat α → ℕ → List α) (P : List α → Prop)
    (hf : ∀ m' j, P (f m' j)) :
    ∀ (l : List ℕ) (m : Mat α) (r : ℕ), r ∈ l → r < m.length →
      P (getRow (l.foldl (fun m j => m.set j (f m j)) m) r)
  | [], _, r, h, _ => absurd h (List.not_mem_nil r)
  | j :: js, m, r, hmem, hlt => by
    rw [List.foldl_cons]
    by_cases hr : r ∈ js
    · exact foldl_set_getRow_mem f P hf js _ r hr (by rw [List.length_set]; exact hlt)
    · have hrj : r = j := by
        rcases List.mem_cons.1 hmem with h | h
        · exact h
        · exact absurd h hr
      subst hrj
      rw [foldl_set_getRow_not_mem f js _ _ hr, getRow_set_self _ _ _ hlt]
      exact hf m r



theorem ratOps_zero : ratOps.ofRat 0 = 0 := rfl

theorem isZeroRead_iff (o : Option ℚ) : isZeroRead ratOps o = true ↔ o = some 0 := by
  cases o <;> simp [isZeroRead, ratOps, ratOpsWith]

theorem nonZeroRead_false_iff (o : Option ℚ) :
    nonZeroRead ratOps o = false ↔ o = some 0 := by
  cases o <;> simp [nonZeroRead, ratOps, ratOpsWith]

theorem entryD_eq (m : Mat ℚ) (i j : ℕ) :
    entryD ratOps m i j = ((getRow m i).get? j).getD 0 := rfl

theorem rtElimRow_length (np i j : ℕ) (m : Mat ℚ) :
    (rtElimRow ratOps np i j m).length = np := by
  simp [rtElimRow]

theorem rtElimRow_get?_le (np i j c : ℕ) (m : Mat ℚ) (hc : c < np) (hci : c ≤ i) :
    (rtElimRow ratOps np i j m).get? c = some 0 := by
  unfold rtElimRow
  rw [List.get?_map, List.get?_range hc]
  simp [hci, ratOps_zero]

theorem rtElim_inv (n np i : ℕ) (m1 : Mat ℚ) (hi : i < n) (hlen : m1.length = n)
    (hrows : ∀ r, r < n → (getRow m1 r).length = np)
    (hz : ∀ r c, r < n → c < np → c < r → c < i → (getRow m1 r).get? c = some 0)
    (hcol : nonZeroRead ratOps ((getRow m1 i).get? i) = false →
      ∀ r, i < r → r < n → i < np → (getRow m1 r).get? i = some 0) :
    (rtElim ratOps n np m1 i).length = n ∧
    (∀ r, r < n → (getRow (rtElim ratOps n np m1 i) r).length = np) ∧
    (∀ r c, r < n → c < np → c < r → c < i + 1 →
      (getRow (rtElim ratOps n np m1 i) r).get? c = some 0) := by
  unfold rtElim
  by_cases hnz : nonZeroRead ratOps ((getRow m1 i).get? i) = true
  · rw [if_pos hnz]
    set f : Mat ℚ → ℕ → List ℚ := fun m j => rtElimRow ratOps np i j m with hf
    have hlen2 : ((List.range' (i + 1) (n - (i + 1))).foldl
        (fun m j => m.set j (f m j)) m1).length = m1.length :=
      foldl_set_length f _ m1
    have hmemP := foldl_set_getRow_mem f
      (fun row => row.length = np ∧ ∀ c, c < np → c ≤ i → row.get? c = some 0)
      (fun m' j => ⟨rtElimRow_length np i j m', fun c hc hci =>
        rtElimRow_get?_le np i j c m' hc hci⟩)
      (List.range' (i + 1) (n - (i + 1))) m1
    have hnotmem := foldl_set_getRow_not_mem f (List.range' (i + 1) (n - (i + 1))) m1
    refine ⟨by rw [hlen2, hlen], ?_, ?_⟩
    · intro r hr
      by_cases hmem : r ∈ List.range' (i + 1) (n - (i + 1))
      · exact (hmemP r hmem (by rw [hlen]; exact hr)).1
      · rw [hnotmem r hmem]; exact hrows r hr
    · intro r c hr hc hcr hci
      by_cases hmem : r ∈ List.range' (i + 1) (n - (i + 1))
      · exact (hmemP r hmem (by rw [hlen]; exact hr)).2 c hc (by omega)
      · rw [hnotmem r hmem]
        have hri : r ≤ i := by
          rcases Nat.lt_or_ge r (i + 1) with h | h
          · omega
          · exact absurd (List.mem_range'_1.2 ⟨h, by omega⟩) hmem
        exact hz r c hr hc hcr (by omega)
  · rw [if_neg hnz]
    have hcol2 := hcol (by simpa using hnz)
    refine ⟨hlen, hrows, ?_⟩
    intro r c hr hc hcr hci
    rcases Nat.lt_or_ge c i with h | h
    · exact hz r c hr hc hcr h
    · have hci2 : c = i := by omega
      subst hci2
      exact hcol2 r hcr hr hc



theorem rtStep_inv (n np i : ℕ) (m : Mat ℚ) (hi : i < n) (hlen : m.length = n)
    (hrows : ∀ r, r < n → (getRow m r).length = np)
    (hz : ∀ r c, r < n → c < np → c < r → c < i → (getRow m r).get? c = some 0) :
    (rtStep ratOps n np m i).length = n ∧
    (∀ r, r < n → (getRow (rtStep ratOps n np m i) r).length = np) ∧
    (∀ r c, r < n → c < np → c < r → c < i + 1 →
      (getRow (rtStep ratOps n np m i) r).get? c = some 0) := by
  unfold rtStep rtFix
  by_cases hzero : isZeroRead ratOps ((getRow m i).get? i) = true
  · rw [if_pos hzero]
    have hii : (getRow m i).get? i = some 0 := (isZeroRead_iff _).1 hzero
    have hinp : i < np := by
      have := List.get?_eq_some.1 hii
      obtain ⟨hlt, _⟩ := this
      rw [hrows i hi] at hlt
      exact hlt
    rcases hfind : (List.range' (i + 1) (n - (i + 1))).find?
        (fun j => nonZeroRead ratOps ((getRow m j).get? i)) with _ | j
    · -- no lower row has a non-zero entry: column already clear below
      exact rtElim_inv n np i m hi hlen hrows hz (by
        intro _ r hir hrn hinp2
        have hall := List.find?_eq_none.1 hfind r
          (List.mem_range'_1.2 ⟨by omega, by omega⟩)
        exact (nonZeroRead_false_iff _).1 (by simpa using hall))
    · -- a fix-up row j was added to row i
      have hjmem := List.mem_of_find?_eq_some hfind
      have hjr := List.mem_range'_1.1 hjmem
      have hjp := List.find?_some hfind
      have hju : ∃ u, (getRow m j).get? i = some u ∧ u ≠ 0 := by
        rcases hread : (getRow m j).get? i with _ | u
        · exfalso
          have hlenj := hrows j (by omega)
          have := List.get?_eq_none.1 hread
          omega
        · refine ⟨u, rfl, ?_⟩
          intro h0
          rw [hread, h0] at hjp
          simp [nonZeroRead, ratOps, ratOpsWith] at hjp
      obtain ⟨u, hu, hune⟩ := hju
      set newRow := (List.range np).map fun p =>
        ratOps.add (entryD ratOps m i p) (entryD ratOps m j p) with hnew
      have hset_len : (m.set i newRow).length = n := by rw [List.length_set, hlen]
      have hrowi : getRow (m.set i newRow) i = newRow :=
        getRow_set_self m i newRow (by omega)
      have hrows1 : ∀ r, r < n → (getRow (m.set i newRow) r).length = np := by
        intro r hr
        by_cases hri : i = r
        · subst hri; rw [hrowi]; simp [hnew]
        · rw [getRow_set_ne m i r _ hri]; exact hrows r hr
      have hz1 : ∀ r c, r < n → c < np → c < r → c < i →
          (getRow (m.set i newRow) r).get? c = some 0 := by
        intro r c hr hc hcr hci
        by_cases hri : i = r
        · subst hri
          rw [hrowi, hnew, List.get?_map, List.get?_range hc]
          have e1 := hz i c hi hc hcr hci
          have e2 := hz j c (by omega) hc (by omega) (by omega)
          simp only [Option.map_some', entryD_eq, e1, e2, Option.getD_some, Option.some.injEq]
          show (0:ℚ) + 0 = 0
          norm_num
        · rw [getRow_set_ne m i r _ hri]; exact hz r c hr hc hcr hci
      refine rtElim_inv n np i (m.set i newRow) hi hset_len hrows1 hz1 ?_
      -- the diagonal is now non-zero, so the `false` branch is vacuous
      intro hnz
      exfalso
      rw [hrowi, hnew, List.get?_map, List.get?_range hinp, nonZeroRead_false_iff] at hnz
      simp only [Option.map_some', entryD_eq, hii, hu, Option.getD_some, Option.some.injEq] at hnz
      have h0u : (0:ℚ) + u = 0 := hnz
      exact hune (by simpa using h0u)
  · rw [if_neg hzero]
    refine rtElim_inv n np i m hi hlen hrows hz ?_
    intro hnz
    exfalso
    rw [nonZeroRead_false_iff] at hnz
    exact hzero ((isZeroRead_iff _).2 hnz)



theorem rt_fold_inv (n np : ℕ) (m0 : Mat ℚ) (hlen : m0.length = n)
    (hrows : ∀ r, r < n → (getRow m0 r).length = np) :
    ∀ k, k ≤ n →
      ((List.range k).foldl (rtStep ratOps n np) m0).length = n ∧
      (∀ r, r < n →
        (getRow ((List.range k).foldl (rtStep ratOps n np) m0) r).length = np) ∧
      (∀ r c, r < n → c < np → c < r → c < k →
        (getRow ((List.range k).foldl (rtStep ratOps n np) m0) r).get? c = some 0) := by
  intro k
  induction k with
  | zero => exact fun _ => ⟨hlen, hrows, fun r c _ _ _ h => absurd h (Nat.not_lt_zero c)⟩
  | succ k ih =>
    intro hk
    have hk' := Nat.le_of_succ_le hk
    obtain ⟨ih1, ih2, ih3⟩ := ih hk'
    rw [List.range_succ, List.foldl_append, List.foldl_cons, List.foldl_nil]
    exact rtStep_inv n np k _ (by omega) ih1 ih2 ih3

/-- C7: for every (rectangular) matrix, every entry of
`toRightTriangular(M)` strictly below the main diagonal is EXACTLY 0 —
also with rank-deficient pivot columns and with more rows than columns.
The elimination writes literal zeros into columns `≤ i`, the fix-up row
addition only ever adds two already-zero entries below the diagonal, and a
pivot column with no non-zero candidate is already all-zero below. -/
theorem c7_below_diagonal_exact_zero (M T : Mat ℚ) (hM : Rect M)
    (hT : toRightTriangular ratOps M = .ok T) :
    ∀ r c, r < T.length → c < colsOf T → c < r → (getRow T r).get? c = some 0 := by
  match M, hT with
  | r0 :: rest, hT =>
    have hTeq : T = (List.range (r0 :: rest).length).foldl
        (rtStep ratOps (r0 :: rest).length r0.length) (r0 :: rest) := by
      have : toRightTriangular ratOps (r0 :: rest)
          = .ok ((List.range (r0 :: rest).length).foldl
            (rtStep ratOps (r0 :: rest).length r0.length) (r0 :: rest)) := rfl
      rw [this] at hT
      cases hT
      rfl
    set n := (r0 :: rest).length with hn
    set np := r0.length with hnp
    have hrows : ∀ r, r < n → (getRow (r0 :: rest) r).length = np := by
      intro r hr
      have hget := List.get?_eq_get (l := r0 :: rest) hr
      rw [getRow, hget]
      simpa [colsOf] using hM _ (List.get_mem (r0 :: rest) r hr)
    obtain ⟨f1, f2, f3⟩ := rt_fold_inv n np (r0 :: rest) rfl hrows n (Nat.le_refl n)
    intro r c hr hc hcr
    have hTlen : T.length = n := by rw [hTeq]; exact f1
    have hcols : colsOf T = np := by
      have hn0 : 0 < n := by simp [hn]
      have h0 : (getRow T 0).length = np := by rw [hTeq]; exact f2 0 hn0
      match T, hTlen with
      | t0 :: _, _ => simpa [colsOf, getRow] using h0
    rw [hTeq]
    exact f3 r c (by omega) (by rw [hcols] at hc; exact hc) hcr (by omega)


/-- C8: out-of-bounds policy of the 1-indexed accessors: `e(i, j)` returns
the `null` sentinel (never throws) exactly when `i < 1`, `i > rows`,
`j < 1` or `j > cols`, and otherwise returns the element at `(i, j)`;
`row(i)` throws `OutOfRangeError` exactly when `i < 1` or `i > rows` (so
both `row(0)` and `row(N+1)` throw), otherwise returning row `i`. -/
theorem c8_e_row_bounds (m : Mat α) (hm : Rect m) (i j : ℤ) :
    (eAcc m i j = none ↔ (i < 1 ∨ i > m.length ∨ j < 1 ∨ j > colsOf m)) ∧
    (¬(i < 1 ∨ i > m.length ∨ j < 1 ∨ j > colsOf m) →
      eAcc m i j = ((m.get? (i - 1).toNat).getD []).get? (j - 1).toNat) ∧
    (rowAcc m i = .error .outOfRange ↔ (i < 1 ∨ i > m.length)) ∧
    (¬(i < 1 ∨ i > m.length) → rowAcc m i = .ok ((m.get? (i - 1).toNat).getD [])) := by
  refine ⟨?_, ?_, ?_, ?_⟩
  · unfold eAcc
    split_ifs with h1 h2 h3 h4
    · simp; omega
    · simp; omega
    · simp; omega
    · simp; omega
    · push_neg at h1 h2 h3 h4
      have hi : (i - 1).toNat < m.length := by omega
      have hrow : m.get? (i - 1).toNat = some (m.get ⟨(i - 1).toNat, hi⟩) :=
        List.get?_eq_get hi
      rw [hrow]
      have hmem : m.get ⟨(i - 1).toNat, hi⟩ ∈ m := List.get_mem m _ _
      have hlen := hm _ hmem
      simp only [Option.getD_some]
      rw [List.get?_eq_none]
      constructor
      · intro hle; exfalso; omega
      · intro hc; exfalso; omega
  · intro h
    push_neg at h
    unfold eAcc
    split_ifs with h1 h2 h3 h4 <;> first | rfl | omega
  · by_cases h1 : (i < 1 ∨ i > (m.length : ℤ))
    · simp [rowAcc, h1]
    · simp [rowAcc, h1]
  · intro h
    simp [rowAcc, h]

/-- C8 witness: on the concrete matrix `[[1,2],[3,4]]`, `e(0, 1)` is the
`null` sentinel and `row(3)` throws `OutOfRangeError`. -/
theorem c8_e_row_bounds_witness :
    Rect ([[1,2],[3,4]] : Mat ℚ) ∧
    eAcc ([[1,2],[3,4]] : Mat ℚ) 0 1 = none ∧
    rowAcc ([[1,2],[3,4]] : Mat ℚ) 3 = .error .outOfRange :=
  ⟨by decide,
    ((c8_e_row_bounds ([[1,2],[3,4]] : Mat ℚ) (by decide) 0 1).1).mpr (by norm_num),
    ((c8_e_row_bounds ([[1,2],[3,4]] : Mat ℚ) (by decide) 3 1).2.2.1).mpr (by norm_num)⟩

end Sylv

namespace Sylv

variable {α : Type}


/-- `mapE` over elements on which `f` succeeds collects the results. -/
theorem mapE_ok_of (f : β → Except JsError γ) (g : β → γ) :
    ∀ l : List β, (∀ x ∈ l, f x = .ok (g x)) → mapE f l = .ok (l.map g)
  | [], _ => rfl
  | b :: bs, h => by
    rw [List.map_cons]
    show (match f b with
      | Except.error e => Except.error e
      | Except.ok c => match mapE f bs with
        | Except.error e => Except.error e
        | Except.ok cs => Except.ok (c :: cs)) = _
    rw [h b (List.mem_cons_self b bs), mapE_ok_of f g bs
      (fun x hx => h x (List.mem_cons_of_mem b hx))]

/-- C10 (amended): for every non-empty rectangular matrix and 1-based
starting indices `startRow, startCol ≥ 1`, `minor` never throws and wraps:
the result is `nrows × ncols` and its 0-indexed `(i, j)` entry is the
source element at row `(startRow + i - 1) mod rows`, column
`(startCol + j - 1) mod cols` (the claim's 1-indexed
`(startRow + i - 2) mod rows` formula).  The two lower bounds are where
the original claim fails, in two different ways: `startRow < 1` makes the
JavaScript remainder negative, so the row lookup reads a property of
`undefined` and throws a TypeError (the registered counterexample), while
`startCol < 1` with an in-range row does not throw — the column read
`row[-1]` merely yields `undefined`, which is silently stored, so `minor`
returns but the wrap property still fails: the second conjunct shows
`minor(1, 0, 1, 1)` on `[[1,2],[3,4]]` returning the 1×1 matrix holding
`undefined` instead of the wrapped element `2`. -/
theorem c10_minor_wraps :
    (∀ (m : Mat α), Rect m → 0 < m.length → 0 < colsOf m →
      ∀ (sr sc : ℤ), 1 ≤ sr → 1 ≤ sc → ∀ (nr nc : ℕ), 0 < nr → 0 < nc →
      ∃ res, minorM m sr sc nr nc = .ok res ∧ res.length = nr ∧
        (∀ row ∈ res, row.length = nc) ∧
        ∀ i j, i < nr → j < nc →
          ∃ v, (getRow res i).get? j = some (some v) ∧
            (getRow m ((sr + i - 1).tmod m.length).toNat).get?
              ((sc + j - 1).tmod (colsOf m)).toNat = some v) ∧
    minorM ([[1,2],[3,4]] : Mat ℚ) 1 0 1 1 = .ok [[none]] := by
  refine ⟨fun m hm hrows hcols sr sc hsr hsc nr nc hnr hnc => ?_,
    by with_unfolding_all decide⟩
  have hrIdx : ∀ i : ℕ, ((sr + i - 1).tmod m.length).toNat < m.length := by
    intro i
    have h0 : (0:ℤ) ≤ sr + i - 1 := by omega
    have hlen : (0:ℤ) < m.length := by exact_mod_cast hrows
    rw [Int.tmod_eq_emod h0 (by omega)]
    have h1 := Int.emod_nonneg (sr + i - 1) (b := m.length) (by omega)
    have h2 := Int.emod_lt_of_pos (sr + i - 1) hlen
    omega
  have hcIdx : ∀ j : ℕ, ((sc + j - 1).tmod (colsOf m)).toNat < colsOf m := by
    intro j
    have h0 : (0:ℤ) ≤ sc + j - 1 := by omega
    have hlen : (0:ℤ) < colsOf m := by exact_mod_cast hcols
    rw [Int.tmod_eq_emod h0 (by omega)]
    have h1 := Int.emod_nonneg (sc + j - 1) (b := colsOf m) (by omega)
    have h2 := Int.emod_lt_of_pos (sc + j - 1) hlen
    omega
  -- each row fetch succeeds and each entry fetch is `some`
  have hjs : ∀ i : ℕ, jsIdx m ((sr + i - 1).tmod m.length)
      = some (getRow m ((sr + i - 1).tmod m.length).toNat) := by
    intro i
    have h0 : (0:ℤ) ≤ (sr + i - 1).tmod m.length := Int.tmod_nonneg _ (by omega)
    have hsome := List.get?_eq_get (hrIdx i)
    rw [jsIdx, if_neg (by omega)]
    unfold getRow
    rw [hsome]
    rfl
  set g : ℕ → List (Option α) := fun (i : ℕ) =>
    (List.range nc).map fun (j : ℕ) =>
      jsIdx (getRow m ((sr + (i : ℤ) - 1).tmod m.length).toNat)
        ((sc + (j : ℤ) - 1).tmod (colsOf m))
    with hg
  have hmap : minorM m sr sc nr nc = .ok ((List.range nr).map g) := by
    unfold minorM
    apply mapE_ok_of
    intro i _
    rw [hjs i]
  refine ⟨(List.range nr).map g, hmap, by simp, by
    intro row hrow
    obtain ⟨i, _, hi⟩ := List.mem_map.1 hrow
    rw [← hi, hg]; simp, ?_⟩
  intro i j hi hj
  have hrowlen : (getRow m ((sr + i - 1).tmod m.length).toNat).length = colsOf m := by
    rw [getRow, List.get?_eq_get (hrIdx i)]
    simp only [Option.getD_some]
    exact hm _ (List.get_mem m _ (hrIdx i))
  have hentry : jsIdx (getRow m ((sr + i - 1).tmod m.length).toNat)
      ((sc + j - 1).tmod (colsOf m))
      = (getRow m ((sr + i - 1).tmod m.length).toNat).get?
          ((sc + j - 1).tmod (colsOf m)).toNat := by
    rw [jsIdx, if_neg (by
      have := Int.tmod_nonneg (a := sc + j - 1) (colsOf m) (by omega)
      omega)]
  obtain ⟨v, hv⟩ : ∃ v, (getRow m ((sr + i - 1).tmod m.length).toNat).get?
      ((sc + j - 1).tmod (colsOf m)).toNat = some v := by
    rw [List.get?_eq_get (by rw [hrowlen]; exact hcIdx j)]
    exact ⟨_, rfl⟩
  refine ⟨v, ?_, hv⟩
  have hgrow : getRow ((List.range nr).map g) i = g i := by
    rw [getRow, List.get?_map, List.get?_range hi]
    rfl
  rw [hgrow, hg]
  simp only [List.get?_map, List.get?_range hj, Option.map_some']
  rw [hentry, hv]


/-- C10 amended witness: on `[[1,2],[3,4]]` with `startRow = startCol = 2`,
`minor(2, 2, 3, 3)` succeeds and returns a 3×3 wrapped selection. -/
theorem c10_minor_wraps_witness :
    Rect ([[1,2],[3,4]] : Mat ℚ) ∧
    ∃ res, minorM ([[1,2],[3,4]] : Mat ℚ) 2 2 3 3 = .ok res ∧ res.length = 3 := by
  refine ⟨by decide, ?_⟩
  obtain ⟨res, h1, h2, -, -⟩ :=
    c10_minor_wraps.1 ([[1,2],[3,4]] : Mat ℚ) (by decide) (by decide) (by decide)
      2 2 (by decide) (by decide) 3 3 (by decide) (by decide)
  exact ⟨res, h1, h2⟩

end Sylv

namespace Sylv

variable {α : Type} {σ β γ : Type}


theorem foldl_inv (P : σ → Prop) (f : σ → β → σ)
    (hstep : ∀ s x, P s → P (f s x)) :
    ∀ (l : List β) (s : σ), P s → P (l.foldl f s)
  | [], _, h => h
  | x :: xs, s, h => foldl_inv P f hstep xs (f s x) (hstep s x h)

theorem foldE_inv (f : σ → β → Except JsError σ) (P : σ → Prop) (Q : β → Prop)
    (hstep : ∀ st k st', Q k → P st → f st k = .ok st' → P st') :
    ∀ (l : List β) (st st' : σ), (∀ k ∈ l, Q k) → P st →
      foldE f st l = .ok st' → P st' := by
  intro l
  induction l with
  | nil =>
    intro st st' _ hP h
    rw [foldE] at h
    cases h
    exact hP
  | cons x xs ih =>
    intro st st' hQ hP h
    rw [foldE] at h
    rcases hf : f st x with e | st2
    · rw [hf] at h; cases h
    · rw [hf] at h
      exact ih st2 st' (fun k hk => hQ k (List.mem_cons_of_mem x hk))
        (hstep st x st2 (hQ x (List.mem_cons_self x xs)) hP hf) h

theorem shaped_set {n c : ℕ} {m : Mat α} {row : List α} (h : Shaped n c m)
    (hrow : row.length = c) (i : ℕ) : Shaped n c (m.set i row) := by
  refine ⟨by rw [List.length_set]; exact h.1, ?_⟩
  intro r hr
  rcases List.mem_or_eq_of_mem_set hr with h2 | h2
  · exact h.2 r h2
  · rw [h2]; exact hrow

theorem shaped_getRow {n c : ℕ} {m : Mat α} (h : Shaped n c m) {r : ℕ}
    (hr : r < n) : (getRow m r).length = c := by
  have hr2 : r < m.length := by rw [h.1]; exact hr
  rw [getRow, List.get?_eq_get hr2]
  exact h.2 _ (List.get_mem m r hr2)

theorem shaped_setEntry {n c : ℕ} {m : Mat α} (h : Shaped n c m) (i j : ℕ)
    (v : α) : Shaped n c (setEntry m i j v) := by
  unfold setEntry
  by_cases hi : i < n
  · exact shaped_set h (by rw [List.length_set]; exact shaped_getRow h hi) i
  · rw [List.set_eq_of_length_le (by rw [h.1]; omega)]
    exact h

theorem colsOf_shaped {n c : ℕ} {m : Mat α} (h : Shaped n c m) (hn : 0 < n) :
    colsOf m = c := by
  match m, h with
  | r :: rest, h => exact h.2 r (List.mem_cons_self r rest)
  | [], h => exact absurd h.1 (by simp; omega)

theorem idMat_shaped (ops : NumOps α) (s : ℕ) : Shaped s s (idMat ops s) := by
  refine ⟨by simp [idMat], ?_⟩
  intro r hr
  simp only [idMat, List.mem_map] at hr
  obtain ⟨y, _, hy⟩ := hr
  rw [← hy]
  simp

theorem zeroMat_shaped (ops : NumOps α) (s c : ℕ) : Shaped s c (zeroMat ops s c) := by
  refine ⟨by simp [zeroMat, fillMat], ?_⟩
  intro r hr
  simp only [zeroMat, fillMat] at hr
  rw [List.eq_of_mem_replicate hr]
  simp

theorem mulOpM_ok (ops : NumOps α) {a c d : ℕ} (A B : Mat α)
    (hA : Shaped a c A) (hB : Shaped c d B) (ha : 0 < a) (hc : 0 < c) :
    ∃ C, mulOpM ops A B = .ok C ∧ Shaped a d C := by
  match A, hA with
  | r0 :: arest, hA =>
    have hr0 : r0.length = c := hA.2 r0 (List.mem_cons_self r0 arest)
    match B, hB with
    | m0 :: brest, hB =>
      have hm0 : m0.length = d := hB.2 m0 (List.mem_cons_self m0 brest)
      have hBl : (m0 :: brest).length = c := hB.1
      simp only [mulOpM]
      rw [if_neg (by rw [hr0, hBl]; omega)]
      refine ⟨_, rfl, by simpa using hA.1, ?_⟩
      intro r hr
      simp only [List.mem_map] at hr
      obtain ⟨row, _, hrow⟩ := hr
      rw [← hrow]
      simp [hm0]
    | [], hB => exact absurd hB.1 (by simp; omega)
  | [], hA => exact absurd hA.1 (by simp; omega)

theorem ok_bind {γ δ : Type} (a : γ) (f : γ → Except JsError δ) :
    (Except.ok a >>= f : Except JsError δ) = f a := rfl

theorem colAcc_ok (ops : NumOps α) (m : Mat α) {n c : ℕ} (hm : Shaped n c m)
    (hn : 0 < n) (j : ℕ) (hj : 1 ≤ j) (hjc : j ≤ c) :
    ∃ v, colAcc ops m j = .ok v ∧ v.length = n := by
  match m, hm with
  | r0 :: rest, hm =>
    have hr0 : r0.length = c := hm.2 r0 (List.mem_cons_self r0 rest)
    simp only [colAcc]
    rw [if_neg (by omega)]
    exact ⟨_, rfl, by simpa using hm.1⟩
  | [], hm => exact absurd hm.1 (by simp; omega)

theorem mulVec_ok (ops : NumOps α) {n : ℕ} (P : Mat α) (b : List α)
    (hP : Shaped n n P) (hb : b.length = n) (hn : 0 < n) :
    ∃ v, mulVec ops P b = .ok v ∧ v.length = n := by
  match b, hb with
  | x :: bs, hb =>
    have hcol : Shaped n 1 ((x :: bs).map fun y => [y]) := by
      refine ⟨by simpa using hb, ?_⟩
      intro r hr
      simp only [List.mem_map] at hr
      obtain ⟨y, _, hy⟩ := hr
      rw [← hy]
      rfl
    obtain ⟨C, hC, hCs⟩ := mulOpM_ok ops P _ hP hcol hn hn
    simp only [mulVec]
    rw [hC, ok_bind]
    exact colAcc_ok ops C hCs hn 1 (by omega) (by omega)
  | [], hb => exact absurd hb (by simp; omega)



theorem foldl_append_singleton_length (f : List γ → ℕ → γ) :
    ∀ (l : List ℕ) (xa : List γ),
      (l.foldl (fun xa i => xa ++ [f xa i]) xa).length = xa.length + l.length
  | [], xa => rfl
  | i :: is, xa => by
    rw [List.foldl_cons, foldl_append_singleton_length f is]
    simp
    omega

theorem forwardSubstitute_length (ops : NumOps α) (m : Mat α) (b : List α) :
    (forwardSubstitute ops m b).length = m.length := by
  unfold forwardSubstitute
  rw [foldl_append_singleton_length (fun xa i =>
    ops.div (ops.sub ((b.get? (i - 1)).getD (ops.ofRat 0))
      ((List.range' 1 (i - 1)).foldl (fun w j => ops.add w
        (ops.mul (entryD ops m (i - 1) (j - 1)) ((xa.get? (j - 1)).getD (ops.ofRat 0))))
        (ops.ofRat 0)))
    (entryD ops m (i - 1) (i - 1)))]
  simp

theorem backSubstitute_length (ops : NumOps α) (m : Mat α) (b : List α) :
    (backSubstitute ops m b).length = m.length := by
  unfold backSubstitute
  rw [List.length_reverse, foldl_append_singleton_length (fun xa i =>
    ops.div (ops.sub ((b.get? (i - 1)).getD (ops.ofRat 0))
      (((List.range' (i + 1) (colsOf m - i)).reverse).foldl (fun w j => ops.add w
        (ops.mul (entryD ops m (i - 1) (j - 1))
          ((xa.get? (m.length - j)).getD (ops.ofRat 0))))
        (ops.ofRat 0)))
    (entryD ops m (i - 1) (i - 1)))]
  simp



theorem foldl_fst_bound (f : (ℕ × α) → ℕ → (ℕ × α))
    (hf : ∀ s i, (f s i).1 = i ∨ (f s i).1 = s.1) :
    ∀ (l : List ℕ) (s : ℕ × α), (l.foldl f s).1 = s.1 ∨ (l.foldl f s).1 ∈ l
  | [], s => Or.inl rfl
  | i :: is, s => by
    rw [List.foldl_cons]
    rcases foldl_fst_bound f hf is (f s i) with h | h
    · rcases hf s i with h2 | h2
      · right; rw [h, h2]; exact List.mem_cons_self i is
      · left; rw [h, h2]
    · right; exact List.mem_cons_of_mem i h

theorem luPivot_ok (ops : NumOps α) {n c : ℕ} (k j : ℕ) (A P : Mat α)
    (hA : Shaped n c A) (hP : Shaped n n P) (hk1 : 1 ≤ k) (hkn : k ≤ n)
    (A' P' : Mat α) (h : luPivot ops n k j A P = .ok (A', P')) :
    Shaped n c A' ∧ Shaped n n P' := by
  unfold luPivot at h
  have hbound := foldl_fst_bound
    (fun s i =>
      if ops.blt s.2 (ops.abs (entryD ops A (i - 1) (j - 1))) then
        (i, ops.abs (entryD ops A (k - 1) (j - 1)))
      else s)
    (by
      intro s i
      dsimp only
      split_ifs
      · exact Or.inl rfl
      · exact Or.inr rfl)
    (List.range' k (n + 1 - k)) (0, ops.ofRat 0)
  dsimp only at h
  set mi := (List.range' k (n + 1 - k)).foldl
    (fun s i =>
      if ops.blt s.2 (ops.abs (entryD ops A (i - 1) (j - 1))) then
        (i, ops.abs (entryD ops A (k - 1) (j - 1)))
      else s)
    (0, ops.ofRat 0) with hmi
  by_cases h1 : mi.1 = k
  · rw [if_neg (fun hh => hh h1)] at h
    cases h
    exact ⟨hA, hP⟩
  · rw [if_pos h1] at h
    by_cases h2 : mi.1 = 0
    · rw [if_pos h2] at h
      cases h
    · rw [if_neg h2] at h
      rcases hbound with hb | hb
      · exact absurd hb h2
      · have hbr := List.mem_range'_1.1 hb
        have hklt : k - 1 < n := by omega
        have hmlt : mi.1 - 1 < n := by omega
        cases h
        constructor
        · refine shaped_set ?_ ?_ _
          · exact shaped_set hA (shaped_getRow hA hmlt) _
          · exact shaped_getRow hA hklt
        · exact shaped_setEntry (shaped_setEntry (shaped_setEntry
            (shaped_setEntry hP _ _ _) _ _ _) _ _ _) _ _ _



theorem luStep_shapes (ops : NumOps α) {n cols : ℕ}
    (st st' : Mat α × Mat α × Mat α × Mat α × ℕ) (k : ℕ)
    (hk1 : 1 ≤ k) (hkn : k ≤ n)
    (h1 : Shaped n cols st.1) (h2 : Shaped n n st.2.1)
    (h3 : Shaped n n st.2.2.1) (h4 : Shaped n cols st.2.2.2.1)
    (h : luStep ops n cols st k = .ok st') :
    Shaped n cols st'.1 ∧ Shaped n n st'.2.1 ∧ Shaped n n st'.2.2.1 ∧
    Shaped n cols st'.2.2.2.1 := by
  obtain ⟨A0, P0, L0, U0, p⟩ := st
  unfold luStep at h
  dsimp only at h
  rcases hpiv : luPivot ops n k p A0 P0 with e | AP
  · rw [hpiv] at h
    cases h
  · obtain ⟨A1, P1⟩ := AP
    rw [hpiv, ok_bind] at h
    obtain ⟨hA1, hP1⟩ := luPivot_ok ops k p A0 P0 h1 h2 hk1 hkn A1 P1 hpiv
    dsimp only at h
    have hAL := foldl_inv
      (fun (al : Mat α × Mat α) => Shaped n cols al.1 ∧ Shaped n n al.2)
      (fun (al : Mat α × Mat α) i =>
        (((List.range' (k + 1) (cols - k)).foldl
          (fun A j => setEntry A (i - 1) (j - 1)
            (ops.sub (entryD ops A (i - 1) (j - 1))
              (ops.mul (entryD ops A (k - 1) (j - 1))
                (ops.div (entryD ops al.1 (i - 1) (p - 1))
                  (entryD ops al.1 (k - 1) (p - 1))))))
          al.1),
        setEntry al.2 (i - 1) (k - 1)
          (ops.div (entryD ops al.1 (i - 1) (p - 1)) (entryD ops al.1 (k - 1) (p - 1)))))
      (by
        intro s x hs
        exact ⟨foldl_inv (fun A => Shaped n cols A) _
            (fun A j hA => shaped_setEntry hA _ _ _) _ _ hs.1,
          shaped_setEntry hs.2 _ _ _⟩)
      (List.range' (k + 1) (n - k)) (A1, L0) ⟨hA1, h3⟩
    cases h
    exact ⟨hAL.1, hP1, hAL.2,
      foldl_inv (fun U => Shaped n cols U) _
        (fun U j hU => shaped_setEntry hU _ _ _) _ U0 h4⟩



theorem lu_shapes (ops : NumOps α) {n : ℕ} (hn : 0 < n) (A : Mat α)
    (hA : Shaped n n A) (r : LUResult α) (h : lu ops A = .ok r) :
    Shaped n n r.L ∧ Shaped n n r.U ∧ Shaped n n r.P := by
  have hcols : colsOf A = n := colsOf_shaped hA hn
  have hlen : A.length = n := hA.1
  unfold lu at h
  rw [hcols, hlen] at h
  dsimp only at h
  rcases hfold : foldE (luStep ops n n)
      (A, idMat ops n, idMat ops n, zeroMat ops n n, 1)
      (List.range' 1 (min n n)) with e | st'
  · rw [hfold] at h
    cases h
  · rw [hfold, ok_bind] at h
    have hinv := foldE_inv (luStep ops n n)
      (fun (st : Mat α × Mat α × Mat α × Mat α × ℕ) =>
        Shaped n n st.1 ∧ Shaped n n st.2.1 ∧ Shaped n n st.2.2.1 ∧
        Shaped n n st.2.2.2.1)
      (fun k => 1 ≤ k ∧ k ≤ n)
      (by
        intro st k st2 hQ hP hstep
        exact luStep_shapes ops st st2 k hQ.1 hQ.2 hP.1 hP.2.1 hP.2.2.1 hP.2.2.2 hstep)
      (List.range' 1 (min n n))
      (A, idMat ops n, idMat ops n, zeroMat ops n n, 1) st'
      (by
        intro k hk
        have := List.mem_range'_1.1 hk
        omega)
      ⟨hA, idMat_shaped ops n, idMat_shaped ops n, zeroMat_shaped ops n n⟩ hfold
    cases h
    exact ⟨hinv.2.2.1, hinv.2.2.2, hinv.2.1⟩

/-- C9 amended: whenever `lu` completes on a square matrix (no pivot step
saw an all-zero subcolumn), `solve` returns a vector of the right length
without throwing, for EVERY interpretation of the number type — there is
no zero-pivot or singularity check anywhere on the path. -/
theorem c9_solve_ok_when_lu_ok (ops : NumOps α) {n : ℕ} (hn : 0 < n)
    (A : Mat α) (hA : Shaped n n A) (b : List α) (hb : b.length = n)
    (r : LUResult α) (hlu : lu ops A = .ok r) :
    ∃ x, solve ops A b = .ok x ∧ x.length = n := by
  obtain ⟨hL, hU, hP⟩ := lu_shapes ops hn A hA r hlu
  obtain ⟨pb, hpb, hpblen⟩ := mulVec_ok ops r.P b hP hb hn
  have hx : (backSubstitute ops r.U (forwardSubstitute ops r.L pb)).length = n := by
    rw [backSubstitute_length, hU.1]
  obtain ⟨v, hv, hvlen⟩ := mulVec_ok ops r.P _ hP hx hn
  refine ⟨v, ?_, hvlen⟩
  unfold solve
  rw [hlu, ok_bind, hpb, ok_bind]
  exact hv


/-- C9 amended witness: `lu` completes on `[[1]]` and `solve([[1]], [5])`
returns a 1-element vector. -/
theorem c9_solve_ok_when_lu_ok_witness :
    (0:ℕ) < 1 ∧ Shaped 1 1 ([[1]] : Mat ℚ) ∧
    lu ratOps ([[1]] : Mat ℚ) = .ok ⟨[[1]], [[1]], [[1]]⟩ ∧
    ∃ x, solve ratOps ([[1]] : Mat ℚ) [5] = .ok x ∧ x.length = 1 := by
  refine ⟨by decide, by decide, by with_unfolding_all decide, ?_⟩
  exact c9_solve_ok_when_lu_ok ratOps (by decide) [[1]] (by decide) [5] (by decide)
    ⟨[[1]], [[1]], [[1]]⟩ (by with_unfolding_all decide)

end Sylv

namespace Sylv
variable {α : Type}

theorem transpose_shaped (ops : NumOps α) {a b : ℕ} (m : Mat α)
    (hm : Shaped a b m) (ha : 0 < a) : Shaped b a (transpose ops m) := by
  refine ⟨by simp [transpose, colsOf_shaped hm ha], ?_⟩
  intro r hr
  simp only [transpose, List.mem_map] at hr
  obtain ⟨y, _, hy⟩ := hr
  rw [← hy]
  simp [hm.1]

theorem scalarMap_shaped {a b : ℕ} (op : α → α → α) (c : α) (m : Mat α)
    (hm : Shaped a b m) : Shaped a b (scalarMap op c m) := by
  refine ⟨by simp [scalarMap, hm.1], ?_⟩
  intro r hr
  simp only [scalarMap, List.mem_map] at hr
  obtain ⟨y, hy1, hy2⟩ := hr
  rw [← hy2]
  simp [hm.2 y hy1]

theorem mapWithIdx_shaped {a b : ℕ} (f : ℕ → ℕ → α → α) (m : Mat α)
    (hm : Shaped a b m) : Shaped a b (mapWithIdx f m) := by
  refine ⟨by simp [mapWithIdx, hm.1], ?_⟩
  intro r hr
  simp only [mapWithIdx, List.mem_map] at hr
  obtain ⟨y, hy1, hy2⟩ := hr
  rw [← hy2]
  simp
  refine hm.2 y.2 ?_
  have := List.mem_enum_iff_get?.1 hy1
  exact List.get?_mem this

end Sylv

namespace Sylv
variable {α : Type}

theorem subM_ok (ops : NumOps α) {s : ℕ} (A B : Mat α) (hA : Shaped s s A)
    (hB : Shaped s s B) (hs : 0 < s) :
    ∃ C, subM ops A B = .ok C ∧ Shaped s s C := by
  unfold subM
  rw [if_pos ⟨by rw [hA.1, hB.1], by rw [colsOf_shaped hA hs, colsOf_shaped hB hs]⟩]
  exact ⟨_, rfl, mapWithIdx_shaped _ A hA⟩

theorem identSize_shaped (ops : NumOps α) {s n k : ℕ} (e : Mat α)
    (he : Shaped s s e) (hk : 1 ≤ k) (hsum : k - 1 + s = n) :
    Shaped n n (identSize ops e n n k) := by
  constructor
  · simp [identSize, he.1]
    omega
  · intro r hr
    simp only [identSize, List.mem_append, List.mem_map] at hr
    rcases hr with ⟨y, _, hy⟩ | ⟨y, hy1, hy2⟩
    · rw [← hy]; simp
    · have hylen : y.2.length = s := by
        refine he.2 y.2 ?_
        exact List.get?_mem (List.mem_enum_iff_get?.1 hy1)
      have hy1' : y.1 < s := by
        obtain ⟨hlt, -⟩ := List.get?_eq_some.1 (List.mem_enum_iff_get?.1 hy1)
        have hel := he.1
        omega
      rw [← hy2, if_pos (by omega)]
      simp [hylen]
      omega

theorem sliceM_col_shaped (ops : NumOps α) {n : ℕ} (A : Mat α) (k : ℕ)
    (hk : 1 ≤ k) (hkn : k ≤ n) (hA : A.length = n) :
    Shaped (n + 1 - k) 1 (sliceM ops A k 0 k k) := by
  have hk0 : k ≠ 0 := by omega
  constructor
  · simp [sliceM, hA, Nat.max_eq_right hk, hk0]
  · intro r hr
    simp only [sliceM, Nat.max_eq_right hk, hk0, if_false, ite_false, if_neg hk0,
      List.mem_map] at hr
    obtain ⟨y, _, hy⟩ := hr
    rw [← hy]
    simp [hk0]

theorem vecScalarMul_length (ops : NumOps α) (a : List α) (c : α) :
    (vecScalarMul ops a c).length = a.length := by simp [vecScalarMul]

theorem vecAdd_ok (ops : NumOps α) (a b : List α) (h : a.length = b.length) :
    ∃ v, vecAdd ops a b = .ok v ∧ v.length = a.length := by
  unfold vecAdd
  rw [if_neg (by omega)]
  refine ⟨_, rfl, ?_⟩
  rw [List.length_zipWith]
  omega

end Sylv

namespace Sylv
variable {α : Type}

theorem qrStep_ok (ops : NumOps α) {n : ℕ} (Q A : Mat α) (k : ℕ)
    (hQ : Shaped n n Q) (hA : Shaped n n A) (hk : 1 ≤ k) (hkn : k ≤ n - 1)
    (hn2 : 2 ≤ n) :
    ∃ st', qrStep ops n n (Q, A) k = .ok st' ∧
      Shaped n n st'.1 ∧ Shaped n n st'.2 := by
  have hslice := sliceM_col_shaped ops A k hk (by omega) hA.1
  obtain ⟨ak, hak, haklen⟩ :=
    colAcc_ok ops _ hslice (by omega) 1 (by omega) (by omega)
  obtain ⟨vk, hvk, hvklen⟩ := vecAdd_ok ops ak
    (vecScalarMul ops (ops.ofRat 1 :: List.replicate (n - k) (ops.ofRat 0))
      (ops.mul (magnitude ops ak) (signVal ops ((ak.get? 0).getD (ops.ofRat 0)))))
    (by rw [vecScalarMul_length]; simp [haklen]; omega)
  have hVk : Shaped (n + 1 - k) 1 (vk.map fun x => [x]) := by
    refine ⟨by simp [hvklen, haklen], ?_⟩
    intro r hr
    simp only [List.mem_map] at hr
    obtain ⟨y, _, hy⟩ := hr
    rw [← hy]
    rfl
  obtain ⟨VVt, hVVt, hVVts⟩ := mulOpM_ok ops _ _
    (scalarMap_shaped ops.mul (ops.ofRat 2) _ hVk)
    (transpose_shaped ops _ hVk (by omega)) (by omega) (by omega)
  obtain ⟨VtV, hVtV, hVtVs⟩ := mulOpM_ok ops _ _
    (transpose_shaped ops _ hVk (by omega)) hVk (by omega) (by omega)
  have hssame : n - k + 1 = n + 1 - k := by omega
  obtain ⟨Hk, hHk, hHks⟩ := subM_ok ops (idMat ops (n - k + 1))
    (scalarMap ops.div (entryD ops VtV 0 0) VVt)
    (idMat_shaped ops (n - k + 1))
    (by rw [hssame]; exact scalarMap_shaped ops.div _ _ hVVts) (by omega)
  have hQk : Shaped n n (identSize ops Hk n n k) :=
    identSize_shaped ops Hk hHks hk (by omega)
  obtain ⟨A2, hA2, hA2s⟩ := mulOpM_ok ops _ A hQk hA (by omega) (by omega)
  obtain ⟨Q2, hQ2, hQ2s⟩ := mulOpM_ok ops Q _ hQ hQk (by omega) (by omega)
  refine ⟨(Q2, A2), ?_, hQ2s, hA2s⟩
  unfold qrStep
  dsimp only
  rw [hak, ok_bind, hvk, ok_bind, hVVt, ok_bind, hVtV, ok_bind, hHk, ok_bind,
    hA2, ok_bind, hQ2, ok_bind]

end Sylv

namespace Sylv
variable {α : Type}

theorem foldE_total (f : σ → β → Except JsError σ) (P : σ → Prop) (Q : β → Prop)
    (hstep : ∀ st k, Q k → P st → ∃ st', f st k = .ok st' ∧ P st') :
    ∀ (l : List β) (st : σ), (∀ k ∈ l, Q k) → P st →
      ∃ st', foldE f st l = .ok st' ∧ P st' := by
  intro l
  induction l with
  | nil =>
    intro st _ hP
    exact ⟨st, rfl, hP⟩
  | cons x xs ih =>
    intro st hQ hP
    obtain ⟨st2, hst2, hP2⟩ := hstep st x (hQ x (List.mem_cons_self x xs)) hP
    obtain ⟨st', hst', hP'⟩ :=
      ih st2 (fun k hk => hQ k (List.mem_cons_of_mem x hk)) hP2
    refine ⟨st', ?_, hP'⟩
    rw [foldE, hst2]
    exact hst'

theorem qr_ok (ops : NumOps α) {n : ℕ} (mat : Mat α)
    (hmat : Shaped n n mat) (hn : 0 < n) :
    ∃ QR, qr ops mat = .ok QR ∧ Shaped n n QR.1 ∧ Shaped n n QR.2 := by
  have hlen : mat.length = n := hmat.1
  have hcols : colsOf mat = n := colsOf_shaped hmat hn
  obtain ⟨st', hst', hP'⟩ := foldE_total
    (qrStep ops mat.length (colsOf mat))
    (fun st : Mat α × Mat α => Shaped n n st.1 ∧ Shaped n n st.2)
    (fun k => 1 ≤ k ∧ k ≤ n - 1)
    (by
      intro st k hQ hP
      rw [hlen, hcols]
      obtain ⟨st2, h1, h2, h3⟩ :=
        qrStep_ok ops st.1 st.2 k hP.1 hP.2 hQ.1 hQ.2 (by omega)
      exact ⟨st2, h1, h2, h3⟩)
    (List.range' 1 (min mat.length (colsOf mat) - 1))
    (idMat ops mat.length, mat)
    (by
      intro k hk
      rw [List.mem_range'_1] at hk
      rw [hlen, hcols] at hk
      omega)
    (by rw [hlen]; exact ⟨idMat_shaped ops n, hmat⟩)
  refine ⟨st', ?_, hP'.1, hP'.2⟩
  unfold qr
  dsimp only
  rw [hst', ok_bind]

theorem diagonalE_ok (ops : NumOps α) {n : ℕ} (m : Mat α)
    (hm : Shaped n n m) (hn : 0 < n) :
    ∃ d, diagonalE ops m = .ok d ∧ d.length = n := by
  match m, hm with
  | r0 :: rest, hm =>
    have hr0 : r0.length = n := hm.2 r0 (List.mem_cons_self r0 rest)
    have hlen : (r0 :: rest).length = n := hm.1
    have hdec : (r0 :: rest).length = r0.length := by rw [hlen, hr0]
    have heq : diagonalE ops (r0 :: rest) =
        .ok ((List.range (r0 :: rest).length).map
          fun i => entryD ops (r0 :: rest) i i) := by
      simp only [diagonalE, isSquareE, decide_eq_true hdec]
      rfl
    exact ⟨_, heq, by simp [hlen]⟩
  | [], hm => exact absurd hm.1 (by simp; omega)

theorem svdBody_ok (ops : NumOps α) {n : ℕ} (V S U : Mat α)
    (hV : Shaped n n V) (hS : Shaped n n S) (hU : Shaped n n U) (hn : 0 < n) :
    ∃ r, svdBody ops (V, S, U) = .ok r ∧
      Shaped n n r.1.1 ∧ Shaped n n r.1.2.1 ∧ Shaped n n r.1.2.2 := by
  obtain ⟨qr1, hqr1, hq1, hr1⟩ := qr_ok ops _ (transpose_shaped ops S hS hn) hn
  obtain ⟨V1, hV1, hV1s⟩ := mulOpM_ok ops V qr1.1 hV hq1 hn hn
  obtain ⟨qr2, hqr2, hq2, hr2⟩ := qr_ok ops _ (transpose_shaped ops qr1.2 hr1 hn) hn
  obtain ⟨U1, hU1, hU1s⟩ := mulOpM_ok ops U qr2.1 hU hq2 hn hn
  obtain ⟨d, hd, hdlen⟩ := diagonalE_ok ops qr2.2 hr2 hn
  refine ⟨((V1, qr2.2, U1),
    ops.div (magnitude ops (unroll ops (triu ops 1 qr2.2)))
      (if ops.beq (magnitude ops d) (ops.ofRat 0) then ops.ofRat 1
       else magnitude ops d)), ?_, hV1s, hr2, hU1s⟩
  unfold svdBody
  dsimp only
  rw [hqr1, ok_bind, hV1, ok_bind, hqr2, ok_bind, hU1, ok_bind, hd, ok_bind]

theorem svdGo_ok (ops : NumOps α) {n : ℕ} (hn : 0 < n) :
    ∀ (fuel : ℕ) (st : Mat α × Mat α × Mat α) (err : α),
      Shaped n n st.1 → Shaped n n st.2.1 → Shaped n n st.2.2 →
      ∃ st', svdGo ops fuel st err = .ok st' ∧
        Shaped n n st'.1 ∧ Shaped n n st'.2.1 ∧ Shaped n n st'.2.2 := by
  intro fuel
  induction fuel with
  | zero =>
    intro st err h1 h2 h3
    exact ⟨st, rfl, h1, h2, h3⟩
  | succ f ih =>
    intro st err h1 h2 h3
    obtain ⟨V0, S0, U0⟩ := st
    rw [svdGo]
    by_cases hb : ops.blt (ops.ofRat svdTol) err
    · rw [if_pos hb]
      obtain ⟨r, hr, hr1, hr2, hr3⟩ := svdBody_ok ops V0 S0 U0 h1 h2 h3 hn
      obtain ⟨st', hst', hs⟩ := ih r.1 r.2 hr1 hr2 hr3
      refine ⟨st', ?_, hs⟩
      rw [hr, ok_bind]
      exact hst'
    · rw [if_neg hb]
      exact ⟨(V0, S0, U0), rfl, h1, h2, h3⟩

end Sylv

namespace Sylv
variable {α : Type}

theorem svdLoop_ok (ops : NumOps α) {n : ℕ} (mat : Mat α)
    (hmat : Shaped n n mat) (hn : 0 < n) :
    ∃ st', svdLoop ops mat = .ok st' ∧
      Shaped n n st'.1 ∧ Shaped n n st'.2.1 ∧ Shaped n n st'.2.2 := by
  unfold svdLoop
  rw [hmat.1, colsOf_shaped hmat hn]
  exact svdGo_ok ops hn 100 (idMat ops n, transpose ops mat, idMat ops n)
    (ops.ofRat jsMaxValue) (idMat_shaped ops n)
    (transpose_shaped ops mat hmat hn) (idMat_shaped ops n)

theorem negCol_fold_entry (ops : NumOps α) {n cw : ℕ} (c : ℕ) (hc : c < cw) :
    ∀ (L : ℕ) (V : Mat α), Shaped n cw V → L ≤ n →
      Shaped n cw ((List.range L).foldl
        (fun V j => setEntry V j c (ops.neg (entryD ops V j c))) V) ∧
      ∀ r cc, r < n →
        (getRow ((List.range L).foldl
          (fun V j => setEntry V j c (ops.neg (entryD ops V j c))) V) r).get? cc =
        if r < L ∧ cc = c then ((getRow V r).get? c).map ops.neg
        else (getRow V r).get? cc := by
  intro L
  induction L with
  | zero =>
    intro V hV _
    refine ⟨hV, ?_⟩
    intro r cc hr
    simp
  | succ L ih =>
    intro V hV hL
    obtain ⟨hW, hE⟩ := ih V hV (by omega)
    rw [List.range_succ, List.foldl_append, List.foldl_cons, List.foldl_nil]
    set W := (List.range L).foldl
      (fun V j => setEntry V j c (ops.neg (entryD ops V j c))) V with hWdef
    have hWlen : W.length = n := hW.1
    have hrowW : (getRow W L).length = cw := shaped_getRow hW (by omega)
    have hrowV : (getRow V L).length = cw := shaped_getRow hV (by omega)
    refine ⟨shaped_setEntry hW L c _, ?_⟩
    intro r cc hr
    by_cases hrL : r = L
    · subst hrL
      have hset : getRow (setEntry W r c (ops.neg (entryD ops W r c))) r =
          (getRow W r).set c (ops.neg (entryD ops W r c)) := by
        unfold setEntry
        exact getRow_set_self W r _ (by omega)
      rw [hset]
      by_cases hcc : cc = c
      · subst hcc
        have hget : (getRow W r).get? cc = (getRow V r).get? cc := by
          rw [hE r cc hr, if_neg (by omega)]
        have hval : ∃ x, (getRow V r).get? cc = some x := by
          rw [List.get?_eq_getElem?]
          exact ⟨_, List.getElem?_eq_getElem (by omega)⟩
        obtain ⟨x, hx⟩ := hval
        rw [if_pos ⟨by omega, rfl⟩, hx]
        have hlt : cc < (getRow W r).length := by omega
        rw [List.get?_eq_getElem?, List.getElem?_set_self hlt]
        have : entryD ops W r cc = x := by
          rw [entryD, hget, hx]
          rfl
        rw [this]
        rfl
      · rw [List.get?_eq_getElem?, List.getElem?_set_ne (fun e => hcc e.symm),
          ← List.get?_eq_getElem?, hE r cc hr, if_neg (by omega),
          if_neg (by tauto)]
    · have hset : getRow (setEntry W L c (ops.neg (entryD ops W L c))) r =
          getRow W r := by
        unfold setEntry
        exact getRow_set_ne W L r _ (fun e => hrL e.symm)
      rw [hset, hE r cc hr]
      by_cases hcase : r < L ∧ cc = c
      · rw [if_pos hcase, if_pos ⟨by omega, hcase.2⟩]
      · rw [if_neg hcase, if_neg (by
          rintro ⟨h1, h2⟩
          exact hcase ⟨by omega, h2⟩)]

end Sylv

namespace Sylv
variable {α : Type}

theorem svdNeg_fold_entry (ops : NumOps α) {n : ℕ} (ss : List α) :
    ∀ (len : ℕ) (V : Mat α), Shaped n n V → len ≤ n →
      Shaped n n ((List.range' 1 len).foldl
        (fun V i =>
          if ops.blt ((ss.get? (i - 1)).getD (ops.ofRat 0)) (ops.ofRat 0) then
            (List.range n).foldl
              (fun V j => setEntry V j (i - 1) (ops.neg (entryD ops V j (i - 1)))) V
          else V) V) ∧
      ∀ r cc, r < n →
        (getRow ((List.range' 1 len).foldl
          (fun V i =>
            if ops.blt ((ss.get? (i - 1)).getD (ops.ofRat 0)) (ops.ofRat 0) then
              (List.range n).foldl
                (fun V j => setEntry V j (i - 1) (ops.neg (entryD ops V j (i - 1)))) V
            else V) V) r).get? cc =
        if cc < len ∧ ops.blt ((ss.get? cc).getD (ops.ofRat 0)) (ops.ofRat 0) = true
        then ((getRow V r).get? cc).map ops.neg
        else (getRow V r).get? cc := by
  intro len
  induction len with
  | zero =>
    intro V hV _
    refine ⟨hV, ?_⟩
    intro r cc hr
    simp
  | succ len ih =>
    intro V hV hlen
    obtain ⟨hW, hE⟩ := ih V hV (by omega)
    rw [List.range'_concat, List.foldl_append, List.foldl_cons, List.foldl_nil]
    set W := (List.range' 1 len).foldl
      (fun V i =>
        if ops.blt ((ss.get? (i - 1)).getD (ops.ofRat 0)) (ops.ofRat 0) then
          (List.range n).foldl
            (fun V j => setEntry V j (i - 1) (ops.neg (entryD ops V j (i - 1)))) V
        else V) V with hWdef
    simp only [one_mul]
    have hcol : 1 + len - 1 = len := by omega
    by_cases hb : ops.blt ((ss.get? (1 + len - 1)).getD (ops.ofRat 0)) (ops.ofRat 0)
    · rw [if_pos hb]
      rw [hcol] at hb ⊢
      obtain ⟨hN, hNe⟩ :=
        negCol_fold_entry ops len (by omega) n W hW (by omega)
      refine ⟨hN, ?_⟩
      intro r cc hr
      rw [hNe r cc hr]
      by_cases hcc : cc = len
      · subst hcc
        rw [if_pos ⟨hr, rfl⟩, hE r cc hr, if_neg (by omega),
          if_pos ⟨by omega, hb⟩]
      · rw [if_neg (by tauto), hE r cc hr]
        by_cases hlt : cc < len ∧ ops.blt ((ss.get? cc).getD (ops.ofRat 0)) (ops.ofRat 0) = true
        · rw [if_pos hlt, if_pos ⟨by omega, hlt.2⟩]
        · rw [if_neg hlt, if_neg (by
            rintro ⟨h1, h2⟩
            exact hlt ⟨by omega, h2⟩)]
    · rw [if_neg hb]
      rw [hcol] at hb
      refine ⟨hW, ?_⟩
      intro r cc hr
      rw [hE r cc hr]
      by_cases hcc : cc = len
      · subst hcc
        rw [if_neg (by omega), if_neg (by
          rintro ⟨h1, h2⟩
          exact hb h2)]
      · by_cases hlt : cc < len ∧ ops.blt ((ss.get? cc).getD (ops.ofRat 0)) (ops.ofRat 0) = true
        · rw [if_pos hlt, if_pos ⟨by omega, hlt.2⟩]
        · rw [if_neg hlt, if_neg (by
            rintro ⟨h1, h2⟩
            exact hlt ⟨by omega, h2⟩)]

end Sylv

namespace Sylv
variable {α : Type}

/-- C6 (amended theorem): on every SQUARE matrix, for every numeric
interpretation (hence every floating-point square root), `svd` returns
`{U, S, V}` where `S` is the diagonal matrix of the absolute values of the
converged diagonal, `U` is the loop's `U`, and `V` is the loop's `V` with
every column whose converged diagonal entry is negative negated in all of
its rows (for square inputs `U.rows = V.rows`, so the row range `0 ..
U.rows - 1` of the correction covers every row of `V`). -/
theorem c6_svd_correction_square (ops : NumOps α) {n : ℕ} (mat : Mat α)
    (hmat : Shaped n n mat) (hn : 0 < n) :
    ∃ V0 S0 U0 ss V1,
      svdLoop ops mat = .ok (V0, S0, U0) ∧
      diagonalE ops S0 = .ok ss ∧
      svd ops mat = .ok (U0, diagMat ops (ss.map ops.abs), V1) ∧
      Shaped n n V1 ∧
      ∀ r c, r < n → c < n →
        (getRow V1 r).get? c =
          if ops.blt ((ss.get? c).getD (ops.ofRat 0)) (ops.ofRat 0)
          then ((getRow V0 r).get? c).map ops.neg
          else (getRow V0 r).get? c := by
  obtain ⟨st, hloop, h1, h2, h3⟩ := svdLoop_ok ops mat hmat hn
  obtain ⟨V0, S0, U0⟩ := st
  have hV0 : Shaped n n V0 := h1
  have hS0 : Shaped n n S0 := h2
  have hU0 : Shaped n n U0 := h3
  have hU0len : U0.length = n := hU0.1
  obtain ⟨ss, hss, hsslen⟩ := diagonalE_ok ops S0 hS0 hn
  have heq : svdCorrect ops (V0, S0, U0) = .ok (U0, diagMat ops (ss.map ops.abs),
      (List.range' 1 ss.length).foldl
        (fun V i =>
          if ops.blt ((ss.get? (i - 1)).getD (ops.ofRat 0)) (ops.ofRat 0) then
            (List.range U0.length).foldl
              (fun V j => setEntry V j (i - 1) (ops.neg (entryD ops V j (i - 1)))) V
          else V) V0) := by
    unfold svdCorrect
    dsimp only
    rw [hss, ok_bind]
  rw [hU0len] at heq
  obtain ⟨hVsh, hVent⟩ := svdNeg_fold_entry ops ss ss.length V0 hV0 (by omega)
  have hsvd : svd ops mat = .ok (U0, diagMat ops (ss.map ops.abs),
      (List.range' 1 ss.length).foldl
        (fun V i =>
          if ops.blt ((ss.get? (i - 1)).getD (ops.ofRat 0)) (ops.ofRat 0) then
            (List.range n).foldl
              (fun V j => setEntry V j (i - 1) (ops.neg (entryD ops V j (i - 1)))) V
          else V) V0) := by
    unfold svd
    rw [hloop, ok_bind]
    exact heq
  refine ⟨V0, S0, U0, ss, _, hloop, hss, hsvd, hVsh, ?_⟩
  intro r c hr hc
  rw [hVent r c hr]
  by_cases hb : ops.blt ((ss.get? c).getD (ops.ofRat 0)) (ops.ofRat 0)
  · rw [if_pos ⟨by omega, hb⟩, if_pos hb]
  · rw [if_neg (by tauto), if_neg hb]

/-- Witness for the amended C6 theorem at the concrete square input
`[[1]]` over the rational interpretation. -/
theorem c6_svd_correction_square_witness :
    Shaped 1 1 [[(1 : ℚ)]] ∧ 0 < 1 ∧
      (∃ V0 S0 U0 ss V1,
        svdLoop ratOps [[(1 : ℚ)]] = .ok (V0, S0, U0) ∧
        diagonalE ratOps S0 = .ok ss ∧
        svd ratOps [[(1 : ℚ)]] = .ok (U0, diagMat ratOps (ss.map ratOps.abs), V1) ∧
        Shaped 1 1 V1 ∧
        ∀ r c, r < 1 → c < 1 →
          (getRow V1 r).get? c =
            if ratOps.blt ((ss.get? c).getD (ratOps.ofRat 0)) (ratOps.ofRat 0)
            then ((getRow V0 r).get? c).map ratOps.neg
            else (getRow V0 r).get? c) :=
  ⟨by decide, by decide,
    @c6_svd_correction_square ℚ ratOps 1 [[(1 : ℚ)]] (by decide) (by decide)⟩

end Sylv

namespace Sylv

/-- C7 witness: on the concrete matrix `[[1,2],[3,4]]` the elimination
returns `[[1,2],[0,-2]]` and the below-diagonal entry `(2,1)` is exactly
`0`. -/
theorem c7_below_diagonal_exact_zero_witness :
    Rect ([[1,2],[3,4]] : Mat ℚ) ∧
    toRightTriangular ratOps [[1,2],[3,4]] = .ok [[1,2],[0,-2]] ∧
    (getRow ([[1,2],[0,-2]] : Mat ℚ) 1).get? 0 = some 0 :=
  ⟨by decide, by with_unfolding_all decide,
    c7_below_diagonal_exact_zero [[1,2],[3,4]] [[1,2],[0,-2]] (by decide)
      (by with_unfolding_all decide) 1 0 (by decide) (by decide) (by decide)⟩

end Sylv
